import Mathlib

/-!
Verification of the schema-reconciliation helper `clean` from the taxi ETL
notebook.  The helper is embedded shallowly: a tabular batch (dataframe) is a
list of named columns, a column is a dtype tag together with a list of
optional cells (`none` models a missing value / null), and `clean` is a
function from a batch and the `must_haves` column specification to
`Except CleanError DF`, mirroring the Python statement by statement.
-/

/-- Errors the helper can raise: `keyError c` models the `KeyError` thrown by
`ddf[c]` / `ddf.drop(columns=c)` on a missing column, `castError` models the
exception thrown by a failing `astype` cast. -/
inductive CleanError where
  | keyError (col : String)
  | castError
deriving DecidableEq

/-- The dtypes that occur in the notebook's data path. -/
inductive Dtype where
  | object
  | int64
  | int32
  | float64
  | float32
  | datetimeS
  | datetimeMs
deriving DecidableEq

/-- The library's printable name of a dtype, as tested by
`'int' in str(ddf[col].dtype)` etc. in the source. -/
def dtypeStr : Dtype → String
  | .object => "object"
  | .int64 => "int64"
  | .int32 => "int32"
  | .float64 => "float64"
  | .float32 => "float32"
  | .datetimeS => "datetime64[s]"
  | .datetimeMs => "datetime64[ms]"

/-- Does the second list start with the first one? -/
def leadsWith : List Char → List Char → Bool
  | [], _ => true
  | _ :: _, [] => false
  | a :: as, b :: bs => a == b && leadsWith as bs

/-- Does the list contain `pat` as a contiguous sublist? -/
def containsSub (pat : List Char) : List Char → Bool
  | [] => pat.isEmpty
  | l :: rest => leadsWith pat (l :: rest) || containsSub pat rest

/-- Substring test, modelling Python's `pat in s`. -/
def strContains (s pat : String) : Bool := containsSub pat.data s.data

/-- An exact rational in lowest terms, used to model floating-point cell
values (the data path only ever produces decimal fractions, which this
represents exactly). -/
structure Dec where
  num : Int
  den : Nat
deriving DecidableEq

/-- Build a `Dec` in lowest terms from a numerator and a positive
denominator. -/
def mkDec (n : Int) (d : Nat) : Dec :=
  let g := Nat.gcd n.natAbs d
  if g = 0 then ⟨0, 1⟩ else ⟨n / (g : Int), d / g⟩

/-- Floor of a `Dec`. -/
def decFloor (q : Dec) : Int := Int.fdiv q.num (q.den : Int)

/-- A cell value: a string (object dtype), an integer, a float (modelled as
an exact rational), or a timestamp count in the column's unit. -/
inductive Val where
  | str (s : String)
  | int (n : Int)
  | float (q : Dec)
  | dt (t : Int)
deriving DecidableEq

/-- A column: its dtype and its cells; `none` is a missing value. -/
structure Col where
  dtype : Dtype
  cells : List (Option Val)
deriving DecidableEq

/-- A dataframe: an ordered association list of named columns. -/
abbrev DF := List (String × Col)

/-- The column names of a dataframe, in order. -/
def colNames (df : DF) : List String := df.map Prod.fst

/-- Is every character of the list a decimal digit? -/
def allDigits (l : List Char) : Bool := l.all (fun c => c.isDigit)

/-- Numeric value of a digit string. -/
def digitsVal (l : List Char) : Nat := l.foldl (fun a c => 10 * a + (c.toNat - 48)) 0

/-- Split a character list at every decimal point. -/
def splitDot : List Char → List (List Char)
  | [] => [[]]
  | c :: rest =>
      let r := splitDot rest
      if c == '.' then [] :: r
      else
        match r with
        | [] => [[c]]
        | h :: t => (c :: h) :: t

/-- Model of the numeric-text parser behind `astype('float32')` on a string
column: an optional sign, an integer part and at most one decimal point.  A
second decimal point (as in "12.5.3") or any non-digit makes the parse fail,
mirroring the `ValueError` of the library parser. -/
def parseDecimal (s : String) : Option Dec :=
  let p : Bool × List Char :=
    match s.data with
    | '-' :: rest => (true, rest)
    | l => (false, l)
  let q? : Option Dec :=
    match splitDot p.2 with
    | [w] => if !w.isEmpty && allDigits w then some (mkDec (digitsVal w : Int) 1) else none
    | [w, f] =>
        if (!w.isEmpty || !f.isEmpty) && allDigits w && allDigits f
        then some (mkDec ((digitsVal w * 10 ^ f.length + digitsVal f : Nat) : Int) (10 ^ f.length))
        else none
    | _ => none
  q?.map (fun q => if p.1 then mkDec (-q.num) q.den else q)

/-- Model of the external library's datetime-string parser (the library is a
black box per the spec): a nonempty all-digit string is accepted as an epoch
second count, anything else fails. -/
def parseDatetime (s : String) : Option Int :=
  if !s.data.isEmpty && allDigits s.data then some (digitsVal s.data : Int) else none

/-- Wrap an integer into the signed 32-bit range, modelling the narrowing
`astype('int32')`. -/
def wrap32 (n : Int) : Int := (n + 2 ^ 31) % 2 ^ 32 - 2 ^ 31

/-- Cast one non-missing cell from a column of dtype `src` to dtype `tgt`;
`none` is a cast failure.  Only the three target dtypes that `clean` uses are
accepted. -/
def castCell (src tgt : Dtype) (v : Val) : Option Val :=
  match tgt, v with
  | .float32, .str s => (parseDecimal s).map .float
  | .float32, .int n => some (.float (mkDec n 1))
  | .float32, .float q => some (.float q)
  | .float32, .dt t => some (.float (mkDec t 1))
  | .int32, .str s =>
      (parseDecimal s).bind (fun q => if q.den = 1 then some (.int (wrap32 q.num)) else none)
  | .int32, .int n => some (.int (wrap32 n))
  | .int32, .float q => some (.int (wrap32 (decFloor q)))
  | .int32, .dt t => some (.int (wrap32 t))
  | .datetimeMs, .str s => (parseDatetime s).map (fun t => .dt (t * 1000))
  | .datetimeMs, .int n => some (.dt n)
  | .datetimeMs, .float q => some (.dt (decFloor q))
  | .datetimeMs, .dt t => some (.dt (if src = .datetimeS then t * 1000 else t))
  | _, _ => none

/-- Cast a list of cells; missing cells stay missing, a failing cell aborts
with `castError`. -/
def castCells (src tgt : Dtype) : List (Option Val) → Except CleanError (List (Option Val))
  | [] => .ok []
  | none :: rest => (castCells src tgt rest).map (fun l => none :: l)
  | some v :: rest =>
      match castCell src tgt v with
      | none => .error .castError
      | some w => (castCells src tgt rest).map (fun l => some w :: l)

/-- `series.astype(tgt)`. -/
def astype (c : Col) (tgt : Dtype) : Except CleanError Col :=
  (castCells c.dtype tgt c.cells).map (fun l => ⟨tgt, l⟩)

/-- `series.str.fillna(s)`: replace missing cells of a string column by the
string `s`. -/
def strFillna (c : Col) (s : String) : Col :=
  ⟨c.dtype, c.cells.map (fun ov => match ov with | none => some (.str s) | some v => some v)⟩

/-- The value the library substitutes when `fillna(n)` is called with an
integer scalar on a column of dtype `d` (the scalar is cast to the column's
dtype). -/
def sentinelVal (d : Dtype) (n : Int) : Val :=
  match d with
  | .int64 | .int32 => .int n
  | .float64 | .float32 => .float (mkDec n 1)
  | .datetimeS | .datetimeMs => .dt n
  | .object => .str (toString n)

/-- `series.fillna(n)` with an integer scalar. -/
def fillnaInt (c : Col) (n : Int) : Col :=
  ⟨c.dtype, c.cells.map (fun ov => match ov with
    | none => some (sentinelVal c.dtype n)
    | some v => some v)⟩

/-- `df.rename(columns=f)` for a total renaming function. -/
def renameCols (f : String → String) (df : DF) : DF := df.map (fun p => (f p.1, p.2))

/-- Remove leading and trailing whitespace from a character list. -/
def trimChars (l : List Char) : List Char :=
  ((l.dropWhile Char.isWhitespace).reverse.dropWhile Char.isWhitespace).reverse

/-- Step 1 of `clean`: `col.strip().lower()`. -/
def normalizeName (s : String) : String :=
  String.mk ((trimChars s.data).map Char.toLower)

/-- Step 2 of `clean`: the fixed alias rename table. -/
def aliasName (s : String) : String :=
  if s = "tpep_pickup_datetime" then "pickup_datetime"
  else if s = "tpep_dropoff_datetime" then "dropoff_datetime"
  else if s = "ratecodeid" then "rate_code"
  else s

/-- The two renames of `clean` composed: what the batch looks like after name
normalization and alias resolution. -/
def renamed (df : DF) : DF := renameCols aliasName (renameCols normalizeName df)

/-- `df[name]`: the first column with the given name, if any. -/
def getCol (df : DF) (name : String) : Option Col :=
  (df.find? (fun p => p.1 == name)).map Prod.snd

/-- `df[name] = c`: replace every column labelled `name` (append if absent). -/
def setCol (df : DF) (name : String) (c : Col) : DF :=
  if df.any (fun p => p.1 == name) then
    df.map (fun p => if p.1 == name then (name, c) else p)
  else df ++ [(name, c)]

/-- `df.drop(columns=name)`: remove every column labelled `name`; raises
`KeyError` when the label is absent, as the library does. -/
def dropCol (df : DF) (name : String) : Except CleanError DF :=
  if df.any (fun p => p.1 == name) then .ok (df.filter (fun p => !(p.1 == name)))
  else .error (.keyError name)

/-- The `must_haves` dictionary of the notebook: required canonical columns
and their declared dtypes. -/
def must_haves : List (String × String) :=
  [("pickup_datetime", "datetime64[s]"),
   ("dropoff_datetime", "datetime64[s]"),
   ("passenger_count", "int32"),
   ("trip_distance", "float32"),
   ("pickup_longitude", "float32"),
   ("pickup_latitude", "float32"),
   ("rate_code", "int32"),
   ("dropoff_longitude", "float32"),
   ("dropoff_latitude", "float32"),
   ("fare_amount", "float32")]

/-- The keys of a column specification (`col in must_haves` tests these). -/
def mhKeys (mh : List (String × String)) : List String := mh.map Prod.fst

/-- The body of the per-column branch of `clean`'s loop, for a retained
column: the object branch does `str.fillna('-1')` then `astype('float32')`;
the numeric branch downcasts (`int` dtypes to int32, then `float` dtypes to
float32, with the dtype re-read between the two tests as in the source) and
ends with `fillna(-1)`. -/
def cleanCol (c : Col) : Except CleanError Col :=
  if c.dtype = .object then
    astype (strFillna c "-1") .float32
  else
    match (if strContains (dtypeStr c.dtype) "int" then astype c .int32 else .ok c) with
    | .error e => .error e
    | .ok c1 =>
        match (if strContains (dtypeStr c1.dtype) "float" then astype c1 .float32 else .ok c1) with
        | .error e => .error e
        | .ok c2 => .ok (fillnaInt c2 (-1))

/-- The loop `for col in ddf.columns: ...` of `clean`, iterating over the
snapshot `cols` of the column names taken at loop entry. -/
def cleanLoop (mh : List (String × String)) : List String → DF → Except CleanError DF
  | [], df => .ok df
  | col :: rest, df =>
      if !((mhKeys mh).contains col) then
        match dropCol df col with
        | .error e => .error e
        | .ok df1 => cleanLoop mh rest df1
      else
        match getCol df col with
        | none => .error (.keyError col)
        | some c =>
            match cleanCol c with
            | .error e => .error e
            | .ok c1 => cleanLoop mh rest (setCol df col c1)

/-- The `clean` helper of the notebook, statement by statement: normalize the
column names, resolve aliases, cast the two timestamp columns to
`datetime64[ms]` (a missing one raises `KeyError`), then run the per-column
loop over the snapshot of the column names. -/
def clean (df : DF) (mh : List (String × String)) : Except CleanError DF :=
  match getCol (renamed df) "pickup_datetime" with
  | none => .error (.keyError "pickup_datetime")
  | some cPU =>
      match astype cPU .datetimeMs with
      | .error e => .error e
      | .ok cPU1 =>
          match getCol (setCol (renamed df) "pickup_datetime" cPU1) "dropoff_datetime" with
          | none => .error (.keyError "dropoff_datetime")
          | some cDO =>
              match astype cDO .datetimeMs with
              | .error e => .error e
              | .ok cDO1 =>
                  cleanLoop mh
                    (colNames (setCol (setCol (renamed df) "pickup_datetime" cPU1)
                      "dropoff_datetime" cDO1))
                    (setCol (setCol (renamed df) "pickup_datetime" cPU1)
                      "dropoff_datetime" cDO1)

/-- The dtype a retained column has after `clean`'s per-column loop, as a
function of the dtype it had before the loop. -/
def loopDtype (d : Dtype) : Dtype :=
  match d with
  | .object => .float32
  | .int64 | .int32 => .int32
  | .float64 | .float32 => .float32
  | .datetimeS => .datetimeS
  | .datetimeMs => .datetimeMs

/-- A column has no missing cells. -/
def noneFree (c : Col) : Bool := c.cells.all (fun ov => ov.isSome)

/-- A cell is a fixed point of the loop body for a column of dtype `d`:
present, and (for the dtypes the loop recasts) of the value shape and range
the cast reproduces verbatim. -/
def stableCell (d : Dtype) (ov : Option Val) : Bool :=
  match ov, d with
  | none, _ => false
  | some (.int n), .int32 => wrap32 n == n
  | some _, .int32 => false
  | some (.float _), .float32 => true
  | some _, .float32 => false
  | some _, .datetimeS => true
  | some _, .datetimeMs => true
  | some _, _ => false

/-- Every cell of the column is stable for its dtype. -/
def colStable (c : Col) : Bool := c.cells.all (stableCell c.dtype)

/-- Dtypes that the per-column loop maps to themselves. -/
def loopFixed (d : Dtype) : Bool :=
  match d with
  | .int32 | .float32 | .datetimeS | .datetimeMs => true
  | _ => false

/-- Every cell of the column is a present timestamp value. -/
def dtCol (c : Col) : Bool :=
  c.cells.all (fun ov => match ov with | some (.dt _) => true | _ => false)

/-- Every cell of the column is a timestamp value or missing. -/
def dtOptCol (c : Col) : Bool :=
  c.cells.all (fun ov => match ov with | some (.dt _) => true | none => true | _ => false)

/-!  Heap model for the purity claim.  Python passes the caller's dataframe by
reference; `clean`'s first statement `ddf = ddf.rename(...)` binds the local
name to a fresh copy, and every later in-place update (`ddf[col] = ...`)
mutates that copy, never the caller's object.  A heap is a list of
dataframes, a reference is an index, a `rename`/`drop` allocates a new cell
at the end, and `__setitem__` overwrites the referenced cell. -/

/-- The per-column loop over heap references: dropping allocates a fresh
dataframe (as `ddf = ddf.drop(...)` does), the column updates mutate the
dataframe the local reference points to. -/
def cleanLoopH (mh : List (String × String)) :
    List String → List DF → Nat → Except CleanError (List DF × Nat)
  | [], h, r => .ok (h, r)
  | col :: rest, h, r =>
      if !((mhKeys mh).contains col) then
        match dropCol (h.getD r []) col with
        | .error e => .error e
        | .ok df1 => cleanLoopH mh rest (h ++ [df1]) h.length
      else
        match getCol (h.getD r []) col with
        | none => .error (.keyError col)
        | some c =>
            match cleanCol c with
            | .error e => .error e
            | .ok c1 => cleanLoopH mh rest (h.set r (setCol (h.getD r []) col c1)) r

/-- `clean` over a heap: takes a reference `i` to the caller's dataframe,
allocates the two renamed copies, mutates only the second copy, and returns
the new heap together with a reference to the result. -/
def cleanH (h : List DF) (i : Nat) (mh : List (String × String)) :
    Except CleanError (List DF × Nat) :=
  let h1 := h ++ [renameCols normalizeName (h.getD i [])]
  let h2 := h1 ++ [renameCols aliasName (renameCols normalizeName (h.getD i []))]
  let r := h1.length
  match getCol (h2.getD r []) "pickup_datetime" with
  | none => .error (.keyError "pickup_datetime")
  | some cPU =>
      match astype cPU .datetimeMs with
      | .error e => .error e
      | .ok cPU1 =>
          let h3 := h2.set r (setCol (h2.getD r []) "pickup_datetime" cPU1)
          match getCol (h3.getD r []) "dropoff_datetime" with
          | none => .error (.keyError "dropoff_datetime")
          | some cDO =>
              match astype cDO .datetimeMs with
              | .error e => .error e
              | .ok cDO1 =>
                  let h4 := h3.set r (setCol (h3.getD r []) "dropoff_datetime" cDO1)
                  cleanLoopH mh (colNames (h4.getD r [])) h4 r

/-!  Concrete batches used as witnesses and counterexamples.  `sampleDF`
mimics a raw vintage: alias names with stray spaces and casing, textual
timestamp and fare columns, 64-bit numerics, scattered missing values, and a
vintage-specific extra column. -/

/-- A raw batch with every canonical column present directly or via alias. -/
def sampleDF : DF :=
  [("Tpep_Pickup_Datetime ", ⟨.object, [some (.str "100"), none]⟩),
   ("tpep_dropoff_datetime", ⟨.object, [some (.str "200"), some (.str "300")]⟩),
   ("passenger_count", ⟨.int64, [some (.int 1), none]⟩),
   ("trip_distance", ⟨.float64, [some (.float (mkDec 2 1)), none]⟩),
   ("pickup_longitude", ⟨.float64, [some (.float (mkDec 0 1)), some (.float (mkDec 1 1))]⟩),
   ("pickup_latitude", ⟨.float64, [some (.float (mkDec 0 1)), some (.float (mkDec 1 1))]⟩),
   ("RateCodeID", ⟨.int64, [some (.int 1), some (.int 2)]⟩),
   ("dropoff_longitude", ⟨.float64, [some (.float (mkDec 0 1)), some (.float (mkDec 1 1))]⟩),
   ("dropoff_latitude", ⟨.float64, [some (.float (mkDec 0 1)), some (.float (mkDec 1 1))]⟩),
   ("fare_amount", ⟨.object, [some (.str "12.5"), none]⟩),
   ("store_and_fwd_flag", ⟨.object, [some (.str "N"), some (.str "Y")]⟩)]

/-- The reconciled batch `clean` produces from `sampleDF`. -/
def sampleOut : DF :=
  [("pickup_datetime", ⟨.datetimeMs, [some (.dt 100000), some (.dt (-1))]⟩),
   ("dropoff_datetime", ⟨.datetimeMs, [some (.dt 200000), some (.dt 300000)]⟩),
   ("passenger_count", ⟨.int32, [some (.int 1), some (.int (-1))]⟩),
   ("trip_distance", ⟨.float32, [some (.float (mkDec 2 1)), some (.float (mkDec (-1) 1))]⟩),
   ("pickup_longitude", ⟨.float32, [some (.float (mkDec 0 1)), some (.float (mkDec 1 1))]⟩),
   ("pickup_latitude", ⟨.float32, [some (.float (mkDec 0 1)), some (.float (mkDec 1 1))]⟩),
   ("rate_code", ⟨.int32, [some (.int 1), some (.int 2)]⟩),
   ("dropoff_longitude", ⟨.float32, [some (.float (mkDec 0 1)), some (.float (mkDec 1 1))]⟩),
   ("dropoff_latitude", ⟨.float32, [some (.float (mkDec 0 1)), some (.float (mkDec 1 1))]⟩),
   ("fare_amount", ⟨.float32, [some (.float (mkDec 25 2)), some (.float (mkDec (-1) 1))]⟩)]

/-- `sampleDF` with the `fare_amount` column removed: every other canonical
column is still present, `fare_amount` has no alias in it. -/
def noFareDF : DF := sampleDF.filter (fun p => !(p.1 == "fare_amount"))

/-- `sampleDF` with a textual `passenger_count` column. -/
def objPcDF : DF :=
  sampleDF.map (fun p =>
    if p.1 == "passenger_count" then ("passenger_count", ⟨.object, [some (.str "2"), none]⟩)
    else p)

/-- `sampleDF` with the malformed numeric text of Scenario D in
`fare_amount`. -/
def badFareDF : DF :=
  sampleDF.map (fun p =>
    if p.1 == "fare_amount" then ("fare_amount", ⟨.object, [some (.str "12.5.3")]⟩)
    else p)

/-- The Scenario B batch: `fare_amount` as text `["12.5", "", "9.0"]` (the
empty cell is a missing value). -/
def scenarioBDF : DF :=
  sampleDF.map (fun p =>
    if p.1 == "fare_amount" then
      ("fare_amount", ⟨.object, [some (.str "12.5"), none, some (.str "9.0")]⟩)
    else p)

/-- A batch with no `pickup_datetime` column under any alias. -/
def noPickupDF : DF :=
  [("passenger_count", ⟨.int64, [some (.int 1)]⟩),
   ("fare_amount", ⟨.float64, [some (.float (mkDec 10 1))]⟩)]

/-- A second vintage: different surface names, values and extra column, but
the same per-column native dtypes as `sampleDF` for every canonical
column. -/
def sample2DF : DF :=
  [("pickup_datetime ", ⟨.object, [some (.str "400")]⟩),
   ("Dropoff_Datetime", ⟨.object, [some (.str "500")]⟩),
   ("passenger_count", ⟨.int64, [some (.int 3)]⟩),
   ("trip_distance", ⟨.float64, [none]⟩),
   ("pickup_longitude", ⟨.float64, [some (.float (mkDec 5 1))]⟩),
   ("pickup_latitude", ⟨.float64, [some (.float (mkDec 5 1))]⟩),
   ("rate_code", ⟨.int64, [some (.int 2)]⟩),
   ("dropoff_longitude", ⟨.float64, [some (.float (mkDec 5 1))]⟩),
   ("dropoff_latitude", ⟨.float64, [some (.float (mkDec 5 1))]⟩),
   ("fare_amount", ⟨.object, [some (.str "7")]⟩),
   ("extra", ⟨.int64, [some (.int 9)]⟩)]

/-- The reconciled batch `clean` produces from `sample2DF`. -/
def sample2Out : DF :=
  [("pickup_datetime", ⟨.datetimeMs, [some (.dt 400000)]⟩),
   ("dropoff_datetime", ⟨.datetimeMs, [some (.dt 500000)]⟩),
   ("passenger_count", ⟨.int32, [some (.int 3)]⟩),
   ("trip_distance", ⟨.float32, [some (.float (mkDec (-1) 1))]⟩),
   ("pickup_longitude", ⟨.float32, [some (.float (mkDec 5 1))]⟩),
   ("pickup_latitude", ⟨.float32, [some (.float (mkDec 5 1))]⟩),
   ("rate_code", ⟨.int32, [some (.int 2)]⟩),
   ("dropoff_longitude", ⟨.float32, [some (.float (mkDec 5 1))]⟩),
   ("dropoff_latitude", ⟨.float32, [some (.float (mkDec 5 1))]⟩),
   ("fare_amount", ⟨.float32, [some (.float (mkDec 7 1))]⟩)]

/-- The reconciled batch `clean` produces from `scenarioBDF`. -/
def scenarioBOut : DF :=
  [("pickup_datetime", ⟨.datetimeMs, [some (.dt 100000), some (.dt (-1))]⟩),
   ("dropoff_datetime", ⟨.datetimeMs, [some (.dt 200000), some (.dt 300000)]⟩),
   ("passenger_count", ⟨.int32, [some (.int 1), some (.int (-1))]⟩),
   ("trip_distance", ⟨.float32, [some (.float (mkDec 2 1)), some (.float (mkDec (-1) 1))]⟩),
   ("pickup_longitude", ⟨.float32, [some (.float (mkDec 0 1)), some (.float (mkDec 1 1))]⟩),
   ("pickup_latitude", ⟨.float32, [some (.float (mkDec 0 1)), some (.float (mkDec 1 1))]⟩),
   ("rate_code", ⟨.int32, [some (.int 1), some (.int 2)]⟩),
   ("dropoff_longitude", ⟨.float32, [some (.float (mkDec 0 1)), some (.float (mkDec 1 1))]⟩),
   ("dropoff_latitude", ⟨.float32, [some (.float (mkDec 0 1)), some (.float (mkDec 1 1))]⟩),
   ("fare_amount", ⟨.float32,
     [some (.float (mkDec 25 2)), some (.float (mkDec (-1) 1)), some (.float (mkDec 9 1))]⟩)]

/-- The pickup column of `sampleDF`, named separately for the alias
witness. -/
def pickupColW : Col := ⟨.object, [some (.str "100"), none]⟩

/-- `sampleDF` without its first column, named separately for the alias
witness. -/
def restW : DF := sampleDF.tail

/-! ### Association-list lemmas about `getCol`, `setCol`, `dropCol` -/

theorem colNames_cons {a : String} {d : Col} {t : DF} :
    colNames ((a, d) :: t) = a :: colNames t := rfl

theorem getCol_some_mem {df : DF} {n : String} {c : Col} (h : getCol df n = some c) :
    n ∈ colNames df := by
  unfold getCol at h
  cases hf : df.find? (fun p => p.1 == n) with
  | none => rw [hf] at h; exact absurd h (by simp)
  | some q =>
      have hp := List.find?_some hf
      have hm := List.mem_of_find?_eq_some hf
      have hqn : q.1 = n := by simpa using hp
      exact hqn ▸ List.mem_map_of_mem Prod.fst hm

theorem getCol_cons {m : String} {d : Col} {t : DF} {n : String} :
    getCol ((m, d) :: t) n = if m = n then some d else getCol t n := by
  unfold getCol
  rw [List.find?_cons]
  by_cases h : m = n
  · have hb : (((m, d) : String × Col).1 == n) = true := by simpa using h
    simp [hb, h]
  · have hb : (((m, d) : String × Col).1 == n) = false := by simpa using h
    simp [hb, h]

theorem getCol_eq_none_iff {df : DF} {n : String} :
    getCol df n = none ↔ n ∉ colNames df := by
  induction df with
  | nil => simp [getCol, colNames]
  | cons p t ih =>
      obtain ⟨m, d⟩ := p
      rw [getCol_cons]
      by_cases h : m = n
      · simp [h, colNames]
      · rw [if_neg h, ih]
        simp only [colNames, List.map_cons, List.mem_cons]
        constructor
        · intro ht hc
          cases hc with
          | inl he => exact h he.symm
          | inr hm => exact ht hm
        · intro hall hm
          exact hall (Or.inr hm)

theorem any_key_iff_mem {df : DF} {n : String} :
    (df.any (fun p => p.1 == n) = true) ↔ n ∈ colNames df := by
  rw [List.any_eq_true]
  constructor
  · rintro ⟨p, hp, hb⟩
    exact (by simpa using hb : p.1 = n) ▸ List.mem_map_of_mem Prod.fst hp
  · intro h
    rcases List.mem_map.mp h with ⟨p, hp, he⟩
    exact ⟨p, hp, by simpa using he⟩

theorem map_setEntry_id {df : DF} {n : String} {c : Col} (h : n ∉ colNames df) :
    df.map (fun p => if p.1 == n then (n, c) else p) = df := by
  induction df with
  | nil => rfl
  | cons p t ih =>
      have hpn : p.1 ≠ n := fun he => h (by simp [colNames, he])
      have ht : n ∉ colNames t := fun hm => h (by simp [colNames] at hm ⊢; exact Or.inr hm)
      rw [List.map_cons, if_neg (by simpa using hpn), ih ht]

theorem getCol_map_setEntry {df : DF} {n : String} {c : Col} :
    getCol (df.map (fun p => if p.1 == n then (n, c) else p)) n
      = (getCol df n).map (fun _ => c) := by
  induction df with
  | nil => rfl
  | cons q t ih =>
      obtain ⟨m, d⟩ := q
      by_cases hq : m = n
      · rw [List.map_cons, if_pos (by simpa using hq)]
        rw [getCol_cons, getCol_cons, if_pos rfl, if_pos hq]
        rfl
      · rw [List.map_cons, if_neg (by simpa using hq)]
        rw [getCol_cons, getCol_cons, if_neg hq, if_neg hq]
        exact ih

theorem getCol_map_setEntry_ne {df : DF} {n m : String} {c : Col} (h : m ≠ n) :
    getCol (df.map (fun p => if p.1 == n then (n, c) else p)) m = getCol df m := by
  induction df with
  | nil => rfl
  | cons q t ih =>
      obtain ⟨a, d⟩ := q
      by_cases ha : a = n
      · rw [List.map_cons, if_pos (by simpa using ha)]
        rw [getCol_cons, getCol_cons, if_neg (fun he => h he.symm),
          if_neg (fun he => h (ha ▸ he).symm)]
        exact ih
      · rw [List.map_cons, if_neg (by simpa using ha)]
        rw [getCol_cons, getCol_cons]
        by_cases ham : a = m
        · rw [if_pos ham, if_pos ham]
        · rw [if_neg ham, if_neg ham]
          exact ih

theorem getCol_append_single_ne {df : DF} {n m : String} {c : Col} (h : m ≠ n) :
    getCol (df ++ [(n, c)]) m = getCol df m := by
  induction df with
  | nil =>
      rw [List.nil_append, getCol_cons, if_neg (fun he => h he.symm)]
  | cons q t ih =>
      obtain ⟨a, d⟩ := q
      rw [List.cons_append, getCol_cons, getCol_cons]
      by_cases ham : a = m
      · rw [if_pos ham, if_pos ham]
      · rw [if_neg ham, if_neg ham]
        exact ih

theorem getCol_setCol_self {df : DF} {n : String} {c : Col} (h : n ∈ colNames df) :
    getCol (setCol df n c) n = some c := by
  unfold setCol
  rw [if_pos (any_key_iff_mem.mpr h), getCol_map_setEntry]
  cases hg : getCol df n with
  | none => exact absurd h (getCol_eq_none_iff.mp hg)
  | some d => rfl

theorem getCol_setCol_ne {df : DF} {n m : String} {c : Col} (h : m ≠ n) :
    getCol (setCol df n c) m = getCol df m := by
  unfold setCol
  by_cases hp : df.any (fun p => p.1 == n)
  · rw [if_pos hp]
    exact getCol_map_setEntry_ne h
  · rw [if_neg hp]
    exact getCol_append_single_ne h

theorem colNames_setCol {df : DF} {n : String} {c : Col} (h : n ∈ colNames df) :
    colNames (setCol df n c) = colNames df := by
  unfold setCol
  rw [if_pos (any_key_iff_mem.mpr h)]
  unfold colNames
  rw [List.map_map]
  apply List.map_congr_left
  intro p _
  by_cases hp : p.1 = n
  · simp [hp]
  · simp [hp]

theorem map_setEntry_self_id {df : DF} {n : String} {c : Col}
    (hnd : (colNames df).Nodup) (hg : getCol df n = some c) :
    df.map (fun p => if p.1 == n then (n, c) else p) = df := by
  induction df with
  | nil => rfl
  | cons q t ih =>
      obtain ⟨a, d⟩ := q
      rw [colNames_cons, List.nodup_cons] at hnd
      by_cases ha : a = n
      · rw [getCol_cons, if_pos ha] at hg
        have hcd : c = d := (Option.some.inj hg).symm
        rw [List.map_cons, if_pos (by simpa using ha), hcd, ← ha,
          map_setEntry_id (ha ▸ hnd.1)]
      · rw [getCol_cons, if_neg ha] at hg
        rw [List.map_cons, if_neg (by simpa using ha), ih hnd.2 hg]

theorem setCol_self_id {df : DF} {n : String} {c : Col}
    (hnd : (colNames df).Nodup) (hg : getCol df n = some c) :
    setCol df n c = df := by
  unfold setCol
  rw [if_pos (any_key_iff_mem.mpr (getCol_some_mem hg))]
  exact map_setEntry_self_id hnd hg

theorem dropCol_ok_eq {df : DF} {n : String} {df1 : DF} (h : dropCol df n = .ok df1) :
    df1 = df.filter (fun p => !(p.1 == n)) := by
  unfold dropCol at h
  by_cases hp : df.any (fun p => p.1 == n)
  · rw [if_pos hp] at h
    exact (Except.ok.inj h).symm
  · rw [if_neg hp] at h
    exact absurd h (by simp)

theorem getCol_filter_ne {df : DF} {n m : String} (h : m ≠ n) :
    getCol (df.filter (fun p => !(p.1 == n))) m = getCol df m := by
  induction df with
  | nil => rfl
  | cons q t ih =>
      obtain ⟨a, d⟩ := q
      by_cases ha : a = n
      · rw [List.filter_cons_of_neg (by simpa using ha), getCol_cons,
          if_neg (fun he => h (ha ▸ he).symm)]
        exact ih
      · rw [List.filter_cons_of_pos (by simpa using ha), getCol_cons, getCol_cons]
        by_cases ham : a = m
        · rw [if_pos ham, if_pos ham]
        · rw [if_neg ham, if_neg ham]
          exact ih

theorem colNames_filter {df : DF} {n : String} :
    colNames (df.filter (fun p => !(p.1 == n)))
      = (colNames df).filter (fun m => !(m == n)) := by
  induction df with
  | nil => rfl
  | cons q t ih =>
      obtain ⟨a, d⟩ := q
      by_cases ha : a = n
      · rw [List.filter_cons_of_neg (by simpa using ha), colNames_cons,
          List.filter_cons_of_neg (by simpa using ha)]
        exact ih
      · rw [List.filter_cons_of_pos (by simpa using ha), colNames_cons, colNames_cons,
          List.filter_cons_of_pos (by simpa using ha)]
        rw [ih]

/-! ### Lemmas about casts and fills -/

theorem exmap_error {α β γ : Type} {f : α → β} {e : γ} :
    Except.map f (Except.error e : Except γ α) = .error e := rfl

theorem exmap_ok {α β γ : Type} {f : α → β} {a : α} :
    Except.map f (Except.ok a : Except γ α) = .ok (f a) := rfl

theorem castCells_error {src tgt : Dtype} {cs : List (Option Val)} {e : CleanError}
    (h : castCells src tgt cs = .error e) : e = .castError := by
  induction cs with
  | nil => exact absurd h (by simp [castCells])
  | cons ov rest ih =>
      cases ov with
      | none =>
          cases hr : castCells src tgt rest with
          | error e1 =>
              simp only [castCells, hr, exmap_error] at h
              have he := Except.error.inj h
              exact ih (he ▸ hr)
          | ok l =>
              simp only [castCells, hr, exmap_ok] at h
              exact absurd h (by simp)
      | some v =>
          cases hc : castCell src tgt v with
          | none =>
              simp only [castCells, hc] at h
              exact (Except.error.inj h).symm
          | some w =>
              cases hr : castCells src tgt rest with
              | error e1 =>
                  simp only [castCells, hc, hr, exmap_error] at h
                  have he := Except.error.inj h
                  exact ih (he ▸ hr)
              | ok l =>
                  simp only [castCells, hc, hr, exmap_ok] at h
                  exact absurd h (by simp)

theorem castCells_ok_eq {src tgt : Dtype} {cs l : List (Option Val)}
    (h : castCells src tgt cs = .ok l) :
    l = cs.map (fun ov => ov.bind (castCell src tgt)) := by
  induction cs generalizing l with
  | nil => simp only [castCells] at h; simpa using (Except.ok.inj h).symm
  | cons ov rest ih =>
      cases ov with
      | none =>
          cases hr : castCells src tgt rest with
          | error e1 =>
              simp only [castCells, hr, exmap_error] at h
              exact absurd h (by simp)
          | ok l1 =>
              simp only [castCells, hr, exmap_ok] at h
              rw [← Except.ok.inj h, List.map_cons, ← ih hr]
              rfl
      | some v =>
          cases hc : castCell src tgt v with
          | none =>
              simp only [castCells, hc] at h
              exact absurd h (by simp)
          | some w =>
              cases hr : castCells src tgt rest with
              | error e1 =>
                  simp only [castCells, hc, hr, exmap_error] at h
                  exact absurd h (by simp)
              | ok l1 =>
                  simp only [castCells, hc, hr, exmap_ok] at h
                  rw [← Except.ok.inj h, List.map_cons, ← ih hr]
                  simp [hc]

theorem castCells_ok_mem {src tgt : Dtype} {cs l : List (Option Val)}
    (h : castCells src tgt cs = .ok l) {v : Val} (hv : some v ∈ cs) :
    castCell src tgt v ≠ none := by
  induction cs generalizing l with
  | nil => exact absurd hv (by simp)
  | cons ov rest ih =>
      cases ov with
      | none =>
          cases hr : castCells src tgt rest with
          | error e1 =>
              simp only [castCells, hr, exmap_error] at h
              exact absurd h (by simp)
          | ok l1 =>
              have hm : some v ∈ rest := by
                cases List.mem_cons.mp hv with
                | inl he => exact absurd he (by simp)
                | inr hm => exact hm
              exact ih hr hm
      | some w =>
          cases hc : castCell src tgt w with
          | none =>
              simp only [castCells, hc] at h
              exact absurd h (by simp)
          | some u =>
              cases List.mem_cons.mp hv with
              | inl he =>
                  have hvw : v = w := by simpa using he
                  rw [hvw, hc]
                  simp
              | inr hm =>
                  cases hr : castCells src tgt rest with
                  | error e1 =>
                      simp only [castCells, hc, hr, exmap_error] at h
                      exact absurd h (by simp)
                  | ok l1 => exact ih hr hm

theorem castCells_fix {src tgt : Dtype} {cs : List (Option Val)}
    (h : ∀ v, some v ∈ cs → castCell src tgt v = some v) :
    castCells src tgt cs = .ok cs := by
  induction cs with
  | nil => rfl
  | cons ov rest ih =>
      have hr := ih (fun v hv => h v (List.mem_cons_of_mem _ hv))
      cases ov with
      | none =>
          simp only [castCells]
          rw [hr]
          rfl
      | some v =>
          simp only [castCells]
          rw [h v (List.mem_cons_self _ _), hr]
          rfl

theorem astype_ok_dtype {c : Col} {tgt : Dtype} {c1 : Col} (h : astype c tgt = .ok c1) :
    c1.dtype = tgt := by
  unfold astype at h
  cases hr : castCells c.dtype tgt c.cells with
  | error e => rw [hr, exmap_error] at h; exact absurd h (by simp)
  | ok l => rw [hr, exmap_ok] at h; rw [← Except.ok.inj h]

theorem astype_ok_cells {c : Col} {tgt : Dtype} {c1 : Col} (h : astype c tgt = .ok c1) :
    c1.cells = c.cells.map (fun ov => ov.bind (castCell c.dtype tgt)) := by
  unfold astype at h
  cases hr : castCells c.dtype tgt c.cells with
  | error e => rw [hr, exmap_error] at h; exact absurd h (by simp)
  | ok l => rw [hr, exmap_ok] at h; rw [← Except.ok.inj h]; exact castCells_ok_eq hr

theorem astype_error_eq {c : Col} {tgt : Dtype} {e : CleanError}
    (h : astype c tgt = .error e) : e = .castError := by
  unfold astype at h
  cases hr : castCells c.dtype tgt c.cells with
  | error e1 =>
      rw [hr, exmap_error] at h
      have he := Except.error.inj h
      exact he ▸ castCells_error hr
  | ok l => rw [hr, exmap_ok] at h; exact absurd h (by simp)

theorem noneFree_strFillna {c : Col} {s : String} : noneFree (strFillna c s) = true := by
  simp only [noneFree, strFillna, List.all_eq_true]
  intro ov hov
  rcases List.mem_map.mp hov with ⟨x, _, he⟩
  cases x with
  | none => rw [← he]; rfl
  | some v => rw [← he]; rfl

theorem noneFree_fillnaInt {c : Col} {n : Int} : noneFree (fillnaInt c n) = true := by
  simp only [noneFree, fillnaInt, List.all_eq_true]
  intro ov hov
  rcases List.mem_map.mp hov with ⟨x, _, he⟩
  cases x with
  | none => rw [← he]; rfl
  | some v => rw [← he]; rfl

theorem fillnaInt_noneFree_id {c : Col} {n : Int} (h : noneFree c = true) :
    fillnaInt c n = c := by
  obtain ⟨d, cells⟩ := c
  simp only [noneFree, List.all_eq_true] at h
  simp only [fillnaInt]
  congr 1
  induction cells with
  | nil => rfl
  | cons ov rest ih =>
      cases hov : ov with
      | none =>
          have hx := h none (hov ▸ List.mem_cons_self _ _)
          simp at hx
      | some v =>
          rw [List.map_cons, ih (fun x hx => h x (List.mem_cons_of_mem _ hx))]

/-! ### Characterization of the per-column loop body -/

theorem cleanCol_object {cs : List (Option Val)} :
    cleanCol ⟨.object, cs⟩ = astype (strFillna ⟨.object, cs⟩ "-1") .float32 := by
  unfold cleanCol
  rw [if_pos rfl]

theorem cleanCol_int64 {cs : List (Option Val)} :
    cleanCol ⟨.int64, cs⟩ = (astype ⟨.int64, cs⟩ .int32).map (fun c1 => fillnaInt c1 (-1)) := by
  show (match astype ⟨Dtype.int64, cs⟩ .int32 with
    | .error e => (.error e : Except CleanError Col)
    | .ok c1 =>
        match (if strContains (dtypeStr c1.dtype) "float" = true
            then astype c1 Dtype.float32 else .ok c1) with
        | .error e => .error e
        | .ok c2 => .ok (fillnaInt c2 (-1))) = _
  split
  next e he => rw [he, exmap_error]
  next c1 he =>
      have hd := astype_ok_dtype he
      rw [he, exmap_ok, hd]
      rfl

theorem cleanCol_int32 {cs : List (Option Val)} :
    cleanCol ⟨.int32, cs⟩ = (astype ⟨.int32, cs⟩ .int32).map (fun c1 => fillnaInt c1 (-1)) := by
  show (match astype ⟨Dtype.int32, cs⟩ .int32 with
    | .error e => (.error e : Except CleanError Col)
    | .ok c1 =>
        match (if strContains (dtypeStr c1.dtype) "float" = true
            then astype c1 Dtype.float32 else .ok c1) with
        | .error e => .error e
        | .ok c2 => .ok (fillnaInt c2 (-1))) = _
  split
  next e he => rw [he, exmap_error]
  next c1 he =>
      have hd := astype_ok_dtype he
      rw [he, exmap_ok, hd]
      rfl

theorem cleanCol_float64 {cs : List (Option Val)} :
    cleanCol ⟨.float64, cs⟩
      = (astype ⟨.float64, cs⟩ .float32).map (fun c1 => fillnaInt c1 (-1)) := by
  show (match astype ⟨Dtype.float64, cs⟩ .float32 with
    | .error e => (.error e : Except CleanError Col)
    | .ok c2 => .ok (fillnaInt c2 (-1))) = _
  split
  next e he => rw [he, exmap_error]
  next c2 he => rw [he, exmap_ok]

theorem cleanCol_float32 {cs : List (Option Val)} :
    cleanCol ⟨.float32, cs⟩
      = (astype ⟨.float32, cs⟩ .float32).map (fun c1 => fillnaInt c1 (-1)) := by
  show (match astype ⟨Dtype.float32, cs⟩ .float32 with
    | .error e => (.error e : Except CleanError Col)
    | .ok c2 => .ok (fillnaInt c2 (-1))) = _
  split
  next e he => rw [he, exmap_error]
  next c2 he => rw [he, exmap_ok]

theorem cleanCol_dtS {cs : List (Option Val)} :
    cleanCol ⟨.datetimeS, cs⟩ = .ok (fillnaInt ⟨.datetimeS, cs⟩ (-1)) := rfl

theorem cleanCol_dtMs {cs : List (Option Val)} :
    cleanCol ⟨.datetimeMs, cs⟩ = .ok (fillnaInt ⟨.datetimeMs, cs⟩ (-1)) := rfl

/-! ### Value-shape and stability lemmas -/

theorem wrap32_idem (n : Int) : wrap32 (wrap32 n) = wrap32 n := by
  unfold wrap32
  rw [Int.sub_add_cancel, Int.emod_emod_of_dvd _ dvd_rfl]

theorem castCell_float32_shape {src : Dtype} {v w : Val}
    (h : castCell src .float32 v = some w) : ∃ q, w = .float q := by
  cases v with
  | str s =>
      simp only [castCell] at h
      rcases Option.map_eq_some'.mp h with ⟨q, _, hw⟩
      exact ⟨q, hw.symm⟩
  | int n => exact ⟨_, (Option.some.inj h).symm⟩
  | float q => exact ⟨_, (Option.some.inj h).symm⟩
  | dt t => exact ⟨_, (Option.some.inj h).symm⟩

theorem castCell_int32_shape {src : Dtype} {v w : Val}
    (h : castCell src .int32 v = some w) : ∃ n, w = .int n ∧ wrap32 n = n := by
  cases v with
  | str s =>
      simp only [castCell] at h
      rcases Option.bind_eq_some.mp h with ⟨q, _, hw⟩
      by_cases hd : q.den = 1
      · rw [if_pos hd] at hw
        exact ⟨wrap32 q.num, (Option.some.inj hw).symm, wrap32_idem _⟩
      · rw [if_neg hd] at hw
        exact absurd hw (by simp)
  | int n => exact ⟨wrap32 n, (Option.some.inj h).symm, wrap32_idem _⟩
  | float q => exact ⟨_, (Option.some.inj h).symm, wrap32_idem _⟩
  | dt t => exact ⟨_, (Option.some.inj h).symm, wrap32_idem _⟩

theorem castCell_Ms_shape {src : Dtype} {v w : Val}
    (h : castCell src .datetimeMs v = some w) : ∃ t, w = .dt t := by
  cases v with
  | str s =>
      simp only [castCell] at h
      rcases Option.map_eq_some'.mp h with ⟨t, _, hw⟩
      exact ⟨t * 1000, hw.symm⟩
  | int n => exact ⟨_, (Option.some.inj h).symm⟩
  | float q => exact ⟨_, (Option.some.inj h).symm⟩
  | dt t => exact ⟨_, (Option.some.inj h).symm⟩

theorem astype_noneFree {c : Col} {tgt : Dtype} {c1 : Col}
    (h : astype c tgt = .ok c1) (hn : noneFree c = true) : noneFree c1 = true := by
  unfold astype at h
  cases hr : castCells c.dtype tgt c.cells with
  | error e => rw [hr, exmap_error] at h; exact absurd h (by simp)
  | ok l =>
      rw [hr, exmap_ok] at h
      rw [← Except.ok.inj h]
      simp only [noneFree, List.all_eq_true] at hn ⊢
      intro ov hov
      rw [castCells_ok_eq hr] at hov
      rcases List.mem_map.mp hov with ⟨x, hx, he⟩
      cases x with
      | none => exact absurd (hn none hx) (by simp)
      | some v =>
          cases hc : castCell c.dtype tgt v with
          | none => exact absurd hc (castCells_ok_mem hr hx)
          | some w =>
              rw [← he]
              simp [hc]

theorem fillnaInt_cells_mem {c : Col} {n : Int} {ov : Option Val}
    (h : ov ∈ (fillnaInt c n).cells) :
    ov = some (sentinelVal c.dtype n) ∨ (ov ∈ c.cells ∧ ov.isSome = true) := by
  simp only [fillnaInt] at h
  rcases List.mem_map.mp h with ⟨x, hx, he⟩
  cases x with
  | none => exact Or.inl he.symm
  | some v => exact Or.inr ⟨he ▸ hx, by rw [← he]; rfl⟩

theorem colStable_noneFree {c : Col} (h : colStable c = true) : noneFree c = true := by
  simp only [colStable, List.all_eq_true] at h
  simp only [noneFree, List.all_eq_true]
  intro ov hov
  cases ov with
  | none => exact absurd (h none hov) (by simp [stableCell])
  | some v => rfl

theorem stableCell_dt {d : Dtype} (hd : d = .datetimeS ∨ d = .datetimeMs) {ov : Option Val} :
    stableCell d ov = ov.isSome := by
  cases ov with
  | none => cases hd with
      | inl h => rw [h]; rfl
      | inr h => rw [h]; rfl
  | some v => cases hd with
      | inl h => rw [h]; cases v <;> rfl
      | inr h => rw [h]; cases v <;> rfl

theorem astype_cells_float32 {c c1 : Col} (h : astype c .float32 = .ok c1) :
    ∀ ov ∈ c1.cells, ov = none ∨ ∃ q, ov = some (.float q) := by
  intro ov hov
  rw [astype_ok_cells h] at hov
  rcases List.mem_map.mp hov with ⟨x, hx, he⟩
  cases x with
  | none => exact Or.inl he.symm
  | some v =>
      cases hc : castCell c.dtype .float32 v with
      | none => rw [← he]; simp [hc]
      | some w =>
          rcases castCell_float32_shape hc with ⟨q, hq⟩
          refine Or.inr ⟨q, ?_⟩
          rw [← he]
          simp [hc, hq]

theorem astype_cells_int32 {c c1 : Col} (h : astype c .int32 = .ok c1) :
    ∀ ov ∈ c1.cells, ov = none ∨ ∃ n, ov = some (.int n) ∧ wrap32 n = n := by
  intro ov hov
  rw [astype_ok_cells h] at hov
  rcases List.mem_map.mp hov with ⟨x, hx, he⟩
  cases x with
  | none => exact Or.inl he.symm
  | some v =>
      cases hc : castCell c.dtype .int32 v with
      | none => rw [← he]; simp [hc]
      | some w =>
          rcases castCell_int32_shape hc with ⟨n, hn, hw⟩
          refine Or.inr ⟨n, ?_, hw⟩
          rw [← he]
          simp [hc, hn]

theorem astype_Ms_dtOpt {c c1 : Col} (h : astype c .datetimeMs = .ok c1) :
    dtOptCol c1 = true := by
  simp only [dtOptCol, List.all_eq_true]
  intro ov hov
  rw [astype_ok_cells h] at hov
  rcases List.mem_map.mp hov with ⟨x, hx, he⟩
  cases x with
  | none => rw [← he]; rfl
  | some v =>
      cases hc : castCell c.dtype .datetimeMs v with
      | none => rw [← he]; simp [hc]
      | some w =>
          rcases castCell_Ms_shape hc with ⟨t, ht⟩
          rw [← he]
          simp [hc, ht]

theorem astype_Ms_fix {c : Col} (hd : c.dtype = .datetimeMs) (hdt : dtCol c = true) :
    astype c .datetimeMs = .ok c := by
  obtain ⟨d, cs⟩ := c
  cases hd
  unfold astype
  rw [castCells_fix]
  · rfl
  · intro v hv
    have hval := List.all_eq_true.mp hdt (some v) hv
    cases v with
    | str s => exact absurd hval (by simp)
    | int n => exact absurd hval (by simp)
    | float q => exact absurd hval (by simp)
    | dt t => simp [castCell]

theorem fillnaInt_dtCol {c : Col}
    (hd : c.dtype = .datetimeMs ∨ c.dtype = .datetimeS) (hdt : dtOptCol c = true) :
    dtCol (fillnaInt c (-1)) = true := by
  simp only [dtCol, List.all_eq_true]
  intro ov hov
  rcases fillnaInt_cells_mem hov with hsent | ⟨hmem, hsome⟩
  · rw [hsent]
    cases hd with
    | inl h => rw [h]; rfl
    | inr h => rw [h]; rfl
  · have hval := List.all_eq_true.mp hdt ov hmem
    cases ov with
    | none => exact absurd hsome (by simp)
    | some v =>
        cases v with
        | str s => exact absurd hval (by simp)
        | int n => exact absurd hval (by simp)
        | float q => exact absurd hval (by simp)
        | dt t => rfl

theorem cleanCol_dtype {c c1 : Col} (h : cleanCol c = .ok c1) :
    c1.dtype = loopDtype c.dtype := by
  obtain ⟨d, cs⟩ := c
  cases d with
  | object =>
      rw [cleanCol_object] at h
      exact astype_ok_dtype h
  | int64 =>
      rw [cleanCol_int64] at h
      cases ha : astype ⟨Dtype.int64, cs⟩ .int32 with
      | error e => rw [ha, exmap_error] at h; exact absurd h (by simp)
      | ok c2 =>
          rw [ha, exmap_ok] at h
          rw [← Except.ok.inj h]
          have hd2 := astype_ok_dtype ha
          exact hd2
  | int32 =>
      rw [cleanCol_int32] at h
      cases ha : astype ⟨Dtype.int32, cs⟩ .int32 with
      | error e => rw [ha, exmap_error] at h; exact absurd h (by simp)
      | ok c2 =>
          rw [ha, exmap_ok] at h
          rw [← Except.ok.inj h]
          have hd2 := astype_ok_dtype ha
          exact hd2
  | float64 =>
      rw [cleanCol_float64] at h
      cases ha : astype ⟨Dtype.float64, cs⟩ .float32 with
      | error e => rw [ha, exmap_error] at h; exact absurd h (by simp)
      | ok c2 =>
          rw [ha, exmap_ok] at h
          rw [← Except.ok.inj h]
          have hd2 := astype_ok_dtype ha
          exact hd2
  | float32 =>
      rw [cleanCol_float32] at h
      cases ha : astype ⟨Dtype.float32, cs⟩ .float32 with
      | error e => rw [ha, exmap_error] at h; exact absurd h (by simp)
      | ok c2 =>
          rw [ha, exmap_ok] at h
          rw [← Except.ok.inj h]
          have hd2 := astype_ok_dtype ha
          exact hd2
  | datetimeS =>
      rw [cleanCol_dtS] at h
      rw [← Except.ok.inj h]
      rfl
  | datetimeMs =>
      rw [cleanCol_dtMs] at h
      rw [← Except.ok.inj h]
      rfl

theorem cleanCol_noneFree {c c1 : Col} (h : cleanCol c = .ok c1) :
    noneFree c1 = true := by
  obtain ⟨d, cs⟩ := c
  cases d with
  | object =>
      rw [cleanCol_object] at h
      exact astype_noneFree h noneFree_strFillna
  | int64 =>
      rw [cleanCol_int64] at h
      cases ha : astype ⟨Dtype.int64, cs⟩ .int32 with
      | error e => rw [ha, exmap_error] at h; exact absurd h (by simp)
      | ok c2 =>
          rw [ha, exmap_ok] at h
          rw [← Except.ok.inj h]
          exact noneFree_fillnaInt
  | int32 =>
      rw [cleanCol_int32] at h
      cases ha : astype ⟨Dtype.int32, cs⟩ .int32 with
      | error e => rw [ha, exmap_error] at h; exact absurd h (by simp)
      | ok c2 =>
          rw [ha, exmap_ok] at h
          rw [← Except.ok.inj h]
          exact noneFree_fillnaInt
  | float64 =>
      rw [cleanCol_float64] at h
      cases ha : astype ⟨Dtype.float64, cs⟩ .float32 with
      | error e => rw [ha, exmap_error] at h; exact absurd h (by simp)
      | ok c2 =>
          rw [ha, exmap_ok] at h
          rw [← Except.ok.inj h]
          exact noneFree_fillnaInt
  | float32 =>
      rw [cleanCol_float32] at h
      cases ha : astype ⟨Dtype.float32, cs⟩ .float32 with
      | error e => rw [ha, exmap_error] at h; exact absurd h (by simp)
      | ok c2 =>
          rw [ha, exmap_ok] at h
          rw [← Except.ok.inj h]
          exact noneFree_fillnaInt
  | datetimeS =>
      rw [cleanCol_dtS] at h
      rw [← Except.ok.inj h]
      exact noneFree_fillnaInt
  | datetimeMs =>
      rw [cleanCol_dtMs] at h
      rw [← Except.ok.inj h]
      exact noneFree_fillnaInt

theorem stable_fillna_int32 {c2 : Col} (hd : c2.dtype = .int32)
    (hcells : ∀ ov ∈ c2.cells, ov = none ∨ ∃ n, ov = some (.int n) ∧ wrap32 n = n) :
    colStable (fillnaInt c2 (-1)) = true := by
  simp only [colStable, List.all_eq_true]
  intro ov hov
  have hdt : (fillnaInt c2 (-1)).dtype = Dtype.int32 := hd
  rw [hdt]
  rcases fillnaInt_cells_mem hov with hsent | ⟨hmem, hsome⟩
  · rw [hsent, hd]
    decide
  · rcases hcells ov hmem with hnone | ⟨n, hn, hw⟩
    · rw [hnone] at hsome; exact absurd hsome (by simp)
    · rw [hn]
      simp [stableCell, hw]

theorem stable_fillna_float32 {c2 : Col} (hd : c2.dtype = .float32)
    (hcells : ∀ ov ∈ c2.cells, ov = none ∨ ∃ q, ov = some (.float q)) :
    colStable (fillnaInt c2 (-1)) = true := by
  simp only [colStable, List.all_eq_true]
  intro ov hov
  have hdt : (fillnaInt c2 (-1)).dtype = Dtype.float32 := hd
  rw [hdt]
  rcases fillnaInt_cells_mem hov with hsent | ⟨hmem, hsome⟩
  · rw [hsent, hd]
    rfl
  · rcases hcells ov hmem with hnone | ⟨q, hq⟩
    · rw [hnone] at hsome; exact absurd hsome (by simp)
    · rw [hq]
      rfl

theorem cleanCol_stable {c c1 : Col} (h : cleanCol c = .ok c1) : colStable c1 = true := by
  obtain ⟨d, cs⟩ := c
  cases d with
  | object =>
      rw [cleanCol_object] at h
      have hdt := astype_ok_dtype h
      have hnf := astype_noneFree h noneFree_strFillna
      simp only [colStable, List.all_eq_true]
      intro ov hov
      rcases astype_cells_float32 h ov hov with hnone | ⟨q, hq⟩
      · have := List.all_eq_true.mp hnf ov hov
        rw [hnone] at this
        exact absurd this (by simp)
      · rw [hq, hdt]
        rfl
  | int64 =>
      rw [cleanCol_int64] at h
      cases ha : astype ⟨Dtype.int64, cs⟩ .int32 with
      | error e => rw [ha, exmap_error] at h; exact absurd h (by simp)
      | ok c2 =>
          rw [ha, exmap_ok] at h
          rw [← Except.ok.inj h]
          exact stable_fillna_int32 (astype_ok_dtype ha) (astype_cells_int32 ha)
  | int32 =>
      rw [cleanCol_int32] at h
      cases ha : astype ⟨Dtype.int32, cs⟩ .int32 with
      | error e => rw [ha, exmap_error] at h; exact absurd h (by simp)
      | ok c2 =>
          rw [ha, exmap_ok] at h
          rw [← Except.ok.inj h]
          exact stable_fillna_int32 (astype_ok_dtype ha) (astype_cells_int32 ha)
  | float64 =>
      rw [cleanCol_float64] at h
      cases ha : astype ⟨Dtype.float64, cs⟩ .float32 with
      | error e => rw [ha, exmap_error] at h; exact absurd h (by simp)
      | ok c2 =>
          rw [ha, exmap_ok] at h
          rw [← Except.ok.inj h]
          exact stable_fillna_float32 (astype_ok_dtype ha) (astype_cells_float32 ha)
  | float32 =>
      rw [cleanCol_float32] at h
      cases ha : astype ⟨Dtype.float32, cs⟩ .float32 with
      | error e => rw [ha, exmap_error] at h; exact absurd h (by simp)
      | ok c2 =>
          rw [ha, exmap_ok] at h
          rw [← Except.ok.inj h]
          exact stable_fillna_float32 (astype_ok_dtype ha) (astype_cells_float32 ha)
  | datetimeS =>
      rw [cleanCol_dtS] at h
      rw [← Except.ok.inj h]
      simp only [colStable, List.all_eq_true]
      intro ov hov
      rw [stableCell_dt (Or.inl (rfl :
        (fillnaInt (⟨Dtype.datetimeS, cs⟩ : Col) (-1)).dtype = Dtype.datetimeS))]
      exact List.all_eq_true.mp noneFree_fillnaInt ov hov
  | datetimeMs =>
      rw [cleanCol_dtMs] at h
      rw [← Except.ok.inj h]
      simp only [colStable, List.all_eq_true]
      intro ov hov
      rw [stableCell_dt (Or.inr (rfl :
        (fillnaInt (⟨Dtype.datetimeMs, cs⟩ : Col) (-1)).dtype = Dtype.datetimeMs))]
      exact List.all_eq_true.mp noneFree_fillnaInt ov hov

theorem loopFixed_loopDtype (d : Dtype) : loopFixed (loopDtype d) = true := by
  cases d <;> rfl

theorem cleanCol_fix {c : Col} (hs : colStable c = true) (hf : loopFixed c.dtype = true) :
    cleanCol c = .ok c := by
  obtain ⟨d, cs⟩ := c
  cases d with
  | object => exact absurd hf (fun hx => nomatch hx)
  | int64 => exact absurd hf (fun hx => nomatch hx)
  | float64 => exact absurd hf (fun hx => nomatch hx)
  | int32 =>
      rw [cleanCol_int32]
      have hca : castCells Dtype.int32 Dtype.int32 cs = .ok cs := by
        apply castCells_fix
        intro v hv
        have hval := List.all_eq_true.mp hs (some v) hv
        cases v with
        | str s => exact absurd hval (by simp [stableCell])
        | float q => exact absurd hval (by simp [stableCell])
        | dt t => exact absurd hval (by simp [stableCell])
        | int n =>
            have hw : wrap32 n = n := by simpa [stableCell] using hval
            simp [castCell, hw]
      have hast : astype ⟨Dtype.int32, cs⟩ Dtype.int32 = .ok ⟨Dtype.int32, cs⟩ := by
        unfold astype
        rw [hca, exmap_ok]
      rw [hast, exmap_ok, fillnaInt_noneFree_id (colStable_noneFree hs)]
  | float32 =>
      rw [cleanCol_float32]
      have hca : castCells Dtype.float32 Dtype.float32 cs = .ok cs := by
        apply castCells_fix
        intro v hv
        have hval := List.all_eq_true.mp hs (some v) hv
        cases v with
        | str s => exact absurd hval (by simp [stableCell])
        | int n => exact absurd hval (by simp [stableCell])
        | dt t => exact absurd hval (by simp [stableCell])
        | float q => simp [castCell]
      have hast : astype ⟨Dtype.float32, cs⟩ Dtype.float32 = .ok ⟨Dtype.float32, cs⟩ := by
        unfold astype
        rw [hca, exmap_ok]
      rw [hast, exmap_ok, fillnaInt_noneFree_id (colStable_noneFree hs)]
  | datetimeS =>
      rw [cleanCol_dtS, fillnaInt_noneFree_id (colStable_noneFree hs)]
  | datetimeMs =>
      rw [cleanCol_dtMs, fillnaInt_noneFree_id (colStable_noneFree hs)]

theorem cleanCol_Ms_out {c c1 : Col} (hd : c.dtype = .datetimeMs)
    (hdt : dtOptCol c = true) (h : cleanCol c = .ok c1) :
    c1.dtype = .datetimeMs ∧ dtCol c1 = true := by
  obtain ⟨d, cs⟩ := c
  cases hd
  rw [cleanCol_dtMs] at h
  rw [← Except.ok.inj h]
  exact ⟨rfl, fillnaInt_dtCol (Or.inl rfl) hdt⟩

/-! ### Lemmas about the per-column loop -/

theorem contains_iff {l : List String} {a : String} : (l.contains a) = true ↔ a ∈ l :=
  List.elem_iff

theorem cleanLoop_names {mh : List (String × String)} :
    ∀ {cols : List String} {df out : DF}, cleanLoop mh cols df = .ok out →
    colNames out = (colNames df).filter
      (fun n => !(cols.contains n) || (mhKeys mh).contains n) := by
  intro cols
  induction cols with
  | nil =>
      intro df out h
      have hdf : df = out := Except.ok.inj h
      rw [← hdf]
      have ht : (colNames df).filter
          (fun n => !((([] : List String)).contains n) || (mhKeys mh).contains n)
          = colNames df := by
        rw [show (fun (n : String) =>
            !((([] : List String)).contains n) || (mhKeys mh).contains n)
          = (fun _ => true) from rfl, List.filter_true]
      rw [ht]
  | cons col rest ih =>
      intro df out h
      simp only [cleanLoop] at h
      by_cases hk : (mhKeys mh).contains col = true
      · rw [if_neg (by rw [hk]; decide)] at h
        cases hg : getCol df col with
        | none =>
            simp only [hg] at h
            exact absurd h (by simp)
        | some c =>
            simp only [hg] at h
            cases hcc : cleanCol c with
            | error e =>
                simp only [hcc] at h
                exact absurd h (by simp)
            | ok c1 =>
                simp only [hcc] at h
                rw [ih h, colNames_setCol (getCol_some_mem hg)]
                apply List.filter_congr
                intro n _
                by_cases hn : n = col
                · simp only [hn, List.contains_cons, hk]
                  simp [hk]
                · simp [hn, List.contains_cons]
      · have hkf : (mhKeys mh).contains col = false := by
          cases hb : (mhKeys mh).contains col
          · rfl
          · exact absurd hb hk
        rw [if_pos (by rw [hkf]; rfl)] at h
        cases hd : dropCol df col with
        | error e =>
            simp only [hd] at h
            exact absurd h (by simp)
        | ok df1 =>
            simp only [hd] at h
            rw [ih h, dropCol_ok_eq hd, colNames_filter, List.filter_filter]
            apply List.filter_congr
            intro n _
            by_cases hn : n = col
            · simp [hn, hkf, List.contains_cons]
              intro hm
              rw [contains_iff.mpr hm] at hkf
              exact absurd hkf (by simp)
            · simp [hn, List.contains_cons]

theorem cleanCol_error {c : Col} {e : CleanError} (h : cleanCol c = .error e) :
    e = .castError := by
  obtain ⟨d, cs⟩ := c
  cases d with
  | object =>
      rw [cleanCol_object] at h
      exact astype_error_eq h
  | int64 =>
      rw [cleanCol_int64] at h
      cases ha : astype ⟨Dtype.int64, cs⟩ .int32 with
      | error e1 =>
          rw [ha, exmap_error] at h
          exact (Except.error.inj h) ▸ astype_error_eq ha
      | ok c2 => rw [ha, exmap_ok] at h; exact absurd h (by simp)
  | int32 =>
      rw [cleanCol_int32] at h
      cases ha : astype ⟨Dtype.int32, cs⟩ .int32 with
      | error e1 =>
          rw [ha, exmap_error] at h
          exact (Except.error.inj h) ▸ astype_error_eq ha
      | ok c2 => rw [ha, exmap_ok] at h; exact absurd h (by simp)
  | float64 =>
      rw [cleanCol_float64] at h
      cases ha : astype ⟨Dtype.float64, cs⟩ .float32 with
      | error e1 =>
          rw [ha, exmap_error] at h
          exact (Except.error.inj h) ▸ astype_error_eq ha
      | ok c2 => rw [ha, exmap_ok] at h; exact absurd h (by simp)
  | float32 =>
      rw [cleanCol_float32] at h
      cases ha : astype ⟨Dtype.float32, cs⟩ .float32 with
      | error e1 =>
          rw [ha, exmap_error] at h
          exact (Except.error.inj h) ▸ astype_error_eq ha
      | ok c2 => rw [ha, exmap_ok] at h; exact absurd h (by simp)
  | datetimeS =>
      rw [cleanCol_dtS] at h
      exact absurd h (by simp)
  | datetimeMs =>
      rw [cleanCol_dtMs] at h
      exact absurd h (by simp)

theorem cleanLoop_untouched {mh : List (String × String)} {n : String} :
    ∀ {cols : List String} {df out : DF}, cleanLoop mh cols df = .ok out →
    n ∉ cols → getCol out n = getCol df n := by
  intro cols
  induction cols with
  | nil =>
      intro df out h _
      rw [← Except.ok.inj h]
  | cons col rest ih =>
      intro df out h hn
      have hnc : n ≠ col := fun he => hn (he ▸ List.mem_cons_self _ _)
      have hnr : n ∉ rest := fun hm => hn (List.mem_cons_of_mem _ hm)
      simp only [cleanLoop] at h
      by_cases hk : (mhKeys mh).contains col = true
      · rw [if_neg (by rw [hk]; decide)] at h
        cases hg : getCol df col with
        | none =>
            simp only [hg] at h
            exact absurd h (by simp)
        | some c =>
            simp only [hg] at h
            cases hcc : cleanCol c with
            | error e =>
                simp only [hcc] at h
                exact absurd h (by simp)
            | ok c1 =>
                simp only [hcc] at h
                rw [ih h hnr, getCol_setCol_ne hnc]
      · have hkf : (mhKeys mh).contains col = false := by
          cases hb : (mhKeys mh).contains col
          · rfl
          · exact absurd hb hk
        rw [if_pos (by rw [hkf]; rfl)] at h
        cases hd : dropCol df col with
        | error e =>
            simp only [hd] at h
            exact absurd h (by simp)
        | ok df1 =>
            simp only [hd] at h
            rw [ih h hnr, dropCol_ok_eq hd, getCol_filter_ne hnc]

theorem cleanLoop_char {mh : List (String × String)} {n : String} :
    ∀ {cols : List String} {df out : DF}, cleanLoop mh cols df = .ok out →
    cols.Nodup → n ∈ cols → n ∈ mhKeys mh →
    (∀ c, getCol df n = some c → ∃ c1, cleanCol c = .ok c1 ∧ getCol out n = some c1)
      ∧ (getCol df n = none → getCol out n = none) := by
  intro cols
  induction cols with
  | nil =>
      intro df out _ _ hmem _
      exact absurd hmem (by simp)
  | cons col rest ih =>
      intro df out h hnd hmem hkey
      rw [List.nodup_cons] at hnd
      simp only [cleanLoop] at h
      by_cases hn : n = col
      · have hk : (mhKeys mh).contains col = true := contains_iff.mpr (hn ▸ hkey)
        rw [if_neg (by rw [hk]; decide)] at h
        cases hg : getCol df col with
        | none =>
            simp only [hg] at h
            exact absurd h (by simp)
        | some c =>
            simp only [hg] at h
            cases hcc : cleanCol c with
            | error e =>
                simp only [hcc] at h
                exact absurd h (by simp)
            | ok c1 =>
                simp only [hcc] at h
                subst hn
                constructor
                · intro c' hc'
                  have hcc' : c' = c := Option.some.inj (hc'.symm.trans hg)
                  refine ⟨c1, hcc' ▸ hcc, ?_⟩
                  rw [cleanLoop_untouched h hnd.1,
                    getCol_setCol_self (getCol_some_mem hg)]
                · intro hnone
                  rw [hnone] at hg
                  exact absurd hg (by simp)
      · have hmr : n ∈ rest := by
          cases List.mem_cons.mp hmem with
          | inl he => exact absurd he hn
          | inr hm => exact hm
        by_cases hk : (mhKeys mh).contains col = true
        · rw [if_neg (by rw [hk]; decide)] at h
          cases hg : getCol df col with
          | none =>
              simp only [hg] at h
              exact absurd h (by simp)
          | some c =>
              simp only [hg] at h
              cases hcc : cleanCol c with
              | error e =>
                  simp only [hcc] at h
                  exact absurd h (by simp)
              | ok c1 =>
                  simp only [hcc] at h
                  have hih := ih h hnd.2 hmr hkey
                  constructor
                  · intro c' hc'
                    exact hih.1 c' (by rw [getCol_setCol_ne hn]; exact hc')
                  · intro hnone
                    exact hih.2 (by rw [getCol_setCol_ne hn]; exact hnone)
        · have hkf : (mhKeys mh).contains col = false := by
            cases hb : (mhKeys mh).contains col
            · rfl
            · exact absurd hb hk
          rw [if_pos (by rw [hkf]; rfl)] at h
          cases hd : dropCol df col with
          | error e =>
              simp only [hd] at h
              exact absurd h (by simp)
          | ok df1 =>
              simp only [hd] at h
              have hih := ih h hnd.2 hmr hkey
              have hget : getCol df1 n = getCol df n := by
                rw [dropCol_ok_eq hd, getCol_filter_ne hn]
              constructor
              · intro c' hc'
                exact hih.1 c' (by rw [hget]; exact hc')
              · intro hnone
                exact hih.2 (by rw [hget]; exact hnone)

theorem cleanLoop_mem {mh : List (String × String)} :
    ∀ {cols : List String} {df out : DF}, cleanLoop mh cols df = .ok out →
    ∀ p ∈ out, (p ∈ df ∧ p.1 ∉ cols) ∨ noneFree p.2 = true := by
  intro cols
  induction cols with
  | nil =>
      intro df out h p hp
      rw [← Except.ok.inj h] at hp
      exact Or.inl ⟨hp, by simp⟩
  | cons col rest ih =>
      intro df out h p hp
      simp only [cleanLoop] at h
      by_cases hk : (mhKeys mh).contains col = true
      · rw [if_neg (by rw [hk]; decide)] at h
        cases hg : getCol df col with
        | none =>
            simp only [hg] at h
            exact absurd h (by simp)
        | some c =>
            simp only [hg] at h
            cases hcc : cleanCol c with
            | error e =>
                simp only [hcc] at h
                exact absurd h (by simp)
            | ok c1 =>
                simp only [hcc] at h
                rcases ih h p hp with ⟨hmem, hni⟩ | hnf
                · have hset : setCol df col c1
                      = df.map (fun q => if q.1 == col then (col, c1) else q) := by
                    unfold setCol
                    rw [if_pos (any_key_iff_mem.mpr (getCol_some_mem hg))]
                  rw [hset] at hmem
                  rcases List.mem_map.mp hmem with ⟨x, hx, he⟩
                  by_cases hxc : x.1 = col
                  · rw [if_pos (by simpa using hxc)] at he
                    refine Or.inr ?_
                    rw [← he]
                    exact cleanCol_noneFree hcc
                  · rw [if_neg (by simpa using hxc)] at he
                    refine Or.inl ⟨he ▸ hx, ?_⟩
                    intro hmc
                    cases List.mem_cons.mp hmc with
                    | inl hec => exact hxc (by rw [he]; exact hec)
                    | inr hmr => exact hni hmr
                · exact Or.inr hnf
      · have hkf : (mhKeys mh).contains col = false := by
          cases hb : (mhKeys mh).contains col
          · rfl
          · exact absurd hb hk
        rw [if_pos (by rw [hkf]; rfl)] at h
        cases hd : dropCol df col with
        | error e =>
            simp only [hd] at h
            exact absurd h (by simp)
        | ok df1 =>
            simp only [hd] at h
            rcases ih h p hp with ⟨hmem, hni⟩ | hnf
            · rw [dropCol_ok_eq hd] at hmem
              have hmf := List.mem_filter.mp hmem
              refine Or.inl ⟨hmf.1, ?_⟩
              intro hmc
              cases List.mem_cons.mp hmc with
              | inl hec => exact absurd (by simpa using hmf.2 : ¬(p.1 = col)) (by simp [hec])
              | inr hmr => exact hni hmr
            · exact Or.inr hnf

theorem cleanLoop_id {mh : List (String × String)} :
    ∀ {cols : List String} {df : DF}, (colNames df).Nodup →
    (∀ c ∈ cols, c ∈ mhKeys mh) →
    (∀ c ∈ cols, c ∈ colNames df) →
    (∀ c ∈ cols, ∀ col, getCol df c = some col → cleanCol col = .ok col) →
    cleanLoop mh cols df = .ok df := by
  intro cols
  induction cols with
  | nil => intro df _ _ _ _; rfl
  | cons col rest ih =>
      intro df hnd hkeys hpres hfix
      have hk : (mhKeys mh).contains col = true :=
        contains_iff.mpr (hkeys col (List.mem_cons_self _ _))
      simp only [cleanLoop]
      rw [if_neg (by rw [hk]; decide)]
      cases hg : getCol df col with
      | none =>
          exact absurd (getCol_eq_none_iff.mp hg) (by
            simp
            exact hpres col (List.mem_cons_self _ _))
      | some c =>
          have hcc : cleanCol c = .ok c := hfix col (List.mem_cons_self _ _) c hg
          show (match cleanCol c with
            | Except.error e => Except.error e
            | Except.ok c1 => cleanLoop mh rest (setCol df col c1)) = Except.ok df
          rw [hcc]
          show cleanLoop mh rest (setCol df col c) = Except.ok df
          rw [setCol_self_id hnd hg]
          exact ih hnd (fun a ha => hkeys a (List.mem_cons_of_mem _ ha))
            (fun a ha => hpres a (List.mem_cons_of_mem _ ha))
            (fun a ha => hfix a (List.mem_cons_of_mem _ ha))

theorem cleanLoop_error {mh : List (String × String)} :
    ∀ {cols : List String} {df : DF} {e : CleanError}, cleanLoop mh cols df = .error e →
    cols.Nodup → (∀ c ∈ cols, c ∈ colNames df) → e = .castError := by
  intro cols
  induction cols with
  | nil =>
      intro df e h _ _
      exact absurd h (by simp [cleanLoop])
  | cons col rest ih =>
      intro df e h hnd hpres
      rw [List.nodup_cons] at hnd
      simp only [cleanLoop] at h
      by_cases hk : (mhKeys mh).contains col = true
      · rw [if_neg (by rw [hk]; decide)] at h
        cases hg : getCol df col with
        | none =>
            exact absurd (getCol_eq_none_iff.mp hg) (by
              simp
              exact hpres col (List.mem_cons_self _ _))
        | some c =>
            simp only [hg] at h
            cases hcc : cleanCol c with
            | error e1 =>
                simp only [hcc] at h
                have he := Except.error.inj h
                exact he ▸ cleanCol_error hcc
            | ok c1 =>
                simp only [hcc] at h
                refine ih h hnd.2 ?_
                intro a ha
                rw [colNames_setCol (getCol_some_mem hg)]
                exact hpres a (List.mem_cons_of_mem _ ha)
      · have hkf : (mhKeys mh).contains col = false := by
          cases hb : (mhKeys mh).contains col
          · rfl
          · exact absurd hb hk
        rw [if_pos (by rw [hkf]; rfl)] at h
        cases hd : dropCol df col with
        | error e1 =>
            unfold dropCol at hd
            rw [if_pos (any_key_iff_mem.mpr (hpres col (List.mem_cons_self _ _)))] at hd
            exact absurd hd (by simp)
        | ok df1 =>
            simp only [hd] at h
            refine ih h hnd.2 ?_
            intro a ha
            rw [dropCol_ok_eq hd, colNames_filter]
            refine List.mem_filter.mpr ⟨hpres a (List.mem_cons_of_mem _ ha), ?_⟩
            have hac : a ≠ col := fun he => hnd.1 (he ▸ ha)
            simpa using hac

/-! ### Lemmas about `clean` itself -/

theorem clean_ok_elim {df : DF} {mh : List (String × String)} {out : DF}
    (h : clean df mh = .ok out) :
    ∃ cPU cPU1 cDO cDO1,
      getCol (renamed df) "pickup_datetime" = some cPU ∧
      astype cPU .datetimeMs = .ok cPU1 ∧
      getCol (setCol (renamed df) "pickup_datetime" cPU1) "dropoff_datetime" = some cDO ∧
      astype cDO .datetimeMs = .ok cDO1 ∧
      cleanLoop mh
        (colNames (setCol (setCol (renamed df) "pickup_datetime" cPU1)
          "dropoff_datetime" cDO1))
        (setCol (setCol (renamed df) "pickup_datetime" cPU1)
          "dropoff_datetime" cDO1) = .ok out := by
  unfold clean at h
  cases hPU : getCol (renamed df) "pickup_datetime" with
  | none =>
      simp only [hPU] at h
      exact absurd h (by simp)
  | some cPU =>
      simp only [hPU] at h
      cases hA1 : astype cPU .datetimeMs with
      | error e =>
          simp only [hA1] at h
          exact absurd h (by simp)
      | ok cPU1 =>
          simp only [hA1] at h
          cases hDO : getCol (setCol (renamed df) "pickup_datetime" cPU1)
              "dropoff_datetime" with
          | none =>
              simp only [hDO] at h
              exact absurd h (by simp)
          | some cDO =>
              simp only [hDO] at h
              cases hA2 : astype cDO .datetimeMs with
              | error e =>
                  simp only [hA2] at h
                  exact absurd h (by simp)
              | ok cDO1 =>
                  simp only [hA2] at h
                  exact ⟨cPU, cPU1, cDO, cDO1, rfl, hA1, hDO, hA2, h⟩

theorem clean_missing_pickup {df : DF} {mh : List (String × String)}
    (h : "pickup_datetime" ∉ colNames (renamed df)) :
    clean df mh = .error (.keyError "pickup_datetime") := by
  unfold clean
  rw [getCol_eq_none_iff.mpr h]

theorem clean_names {df : DF} {mh : List (String × String)} {out : DF}
    (h : clean df mh = .ok out) :
    colNames out = (colNames (renamed df)).filter (fun n => (mhKeys mh).contains n) := by
  obtain ⟨cPU, cPU1, cDO, cDO1, hPU, hA1, hDO, hA2, hloop⟩ := clean_ok_elim h
  have hn2 : colNames (setCol (renamed df) "pickup_datetime" cPU1)
      = colNames (renamed df) := colNames_setCol (getCol_some_mem hPU)
  have hn3 : colNames (setCol (setCol (renamed df) "pickup_datetime" cPU1)
      "dropoff_datetime" cDO1) = colNames (renamed df) := by
    rw [colNames_setCol (getCol_some_mem hDO), hn2]
  rw [cleanLoop_names hloop, hn3]
  apply List.filter_congr
  intro n hn
  rw [contains_iff.mpr hn]
  rfl

theorem clean_names_set {df : DF} {mh : List (String × String)} {out : DF}
    (hpre : ∀ k ∈ mhKeys mh, k ∈ colNames (renamed df))
    (h : clean df mh = .ok out) :
    (colNames out).toFinset = (mhKeys mh).toFinset := by
  rw [clean_names h]
  apply Finset.ext
  intro a
  simp only [List.mem_toFinset, List.mem_filter]
  constructor
  · rintro ⟨_, hk⟩
    exact contains_iff.mp hk
  · intro hk
    exact ⟨hpre a hk, contains_iff.mpr hk⟩

theorem clean_out_noneFree {df : DF} {mh : List (String × String)} {out : DF}
    (h : clean df mh = .ok out) : ∀ p ∈ out, noneFree p.2 = true := by
  obtain ⟨cPU, cPU1, cDO, cDO1, hPU, hA1, hDO, hA2, hloop⟩ := clean_ok_elim h
  intro p hp
  rcases cleanLoop_mem hloop p hp with ⟨hmem, hni⟩ | hnf
  · exact absurd (List.mem_map_of_mem Prod.fst hmem) hni
  · exact hnf

theorem clean_char {df : DF} {mh : List (String × String)} {out : DF}
    (h : clean df mh = .ok out) (hnd : (colNames (renamed df)).Nodup) :
    (∀ n, n ∈ mhKeys mh → n ≠ "pickup_datetime" → n ≠ "dropoff_datetime" →
        ((∀ c, getCol (renamed df) n = some c →
            ∃ c1, cleanCol c = .ok c1 ∧ getCol out n = some c1)
          ∧ (getCol (renamed df) n = none → getCol out n = none)))
    ∧ ("pickup_datetime" ∈ mhKeys mh →
        ∃ cPU cPU1 c1, getCol (renamed df) "pickup_datetime" = some cPU ∧
          astype cPU .datetimeMs = .ok cPU1 ∧ cleanCol cPU1 = .ok c1 ∧
          getCol out "pickup_datetime" = some c1)
    ∧ ("dropoff_datetime" ∈ mhKeys mh →
        ∃ cDO cDO1 c1, getCol (renamed df) "dropoff_datetime" = some cDO ∧
          astype cDO .datetimeMs = .ok cDO1 ∧ cleanCol cDO1 = .ok c1 ∧
          getCol out "dropoff_datetime" = some c1) := by
  obtain ⟨cPU, cPU1, cDO, cDO1, hPU, hA1, hDO, hA2, hloop⟩ := clean_ok_elim h
  have hne : "dropoff_datetime" ≠ "pickup_datetime" := by decide
  have hmemPU : "pickup_datetime" ∈ colNames (renamed df) := getCol_some_mem hPU
  have hn2 : colNames (setCol (renamed df) "pickup_datetime" cPU1)
      = colNames (renamed df) := colNames_setCol hmemPU
  have hmemDO2 : "dropoff_datetime"
      ∈ colNames (setCol (renamed df) "pickup_datetime" cPU1) := getCol_some_mem hDO
  have hn3 : colNames (setCol (setCol (renamed df) "pickup_datetime" cPU1)
      "dropoff_datetime" cDO1) = colNames (renamed df) := by
    rw [colNames_setCol hmemDO2, hn2]
  have hndc : (colNames (setCol (setCol (renamed df) "pickup_datetime" cPU1)
      "dropoff_datetime" cDO1)).Nodup := by rw [hn3]; exact hnd
  refine ⟨?_, ?_, ?_⟩
  · intro n hkey hnpu hndo
    have hg3 : getCol (setCol (setCol (renamed df) "pickup_datetime" cPU1)
        "dropoff_datetime" cDO1) n = getCol (renamed df) n := by
      rw [getCol_setCol_ne hndo, getCol_setCol_ne hnpu]
    constructor
    · intro c hc
      have hc3 : getCol (setCol (setCol (renamed df) "pickup_datetime" cPU1)
          "dropoff_datetime" cDO1) n = some c := by rw [hg3]; exact hc
      have hmem3 : n ∈ colNames (setCol (setCol (renamed df) "pickup_datetime" cPU1)
          "dropoff_datetime" cDO1) := getCol_some_mem hc3
      exact (cleanLoop_char hloop hndc hmem3 hkey).1 c hc3
    · intro hnone
      have hnone3 : getCol (setCol (setCol (renamed df) "pickup_datetime" cPU1)
          "dropoff_datetime" cDO1) n = none := by rw [hg3]; exact hnone
      rw [cleanLoop_untouched hloop (getCol_eq_none_iff.mp hnone3)]
      exact hnone3
  · intro hkeyPU
    have hg3PU : getCol (setCol (setCol (renamed df) "pickup_datetime" cPU1)
        "dropoff_datetime" cDO1) "pickup_datetime" = some cPU1 := by
      rw [getCol_setCol_ne (fun he => hne he.symm)]
      exact getCol_setCol_self hmemPU
    have hmem3 : "pickup_datetime" ∈ colNames (setCol (setCol (renamed df)
        "pickup_datetime" cPU1) "dropoff_datetime" cDO1) := getCol_some_mem hg3PU
    rcases (cleanLoop_char hloop hndc hmem3 hkeyPU).1 cPU1 hg3PU with ⟨c1, hcc, hout⟩
    exact ⟨cPU, cPU1, c1, hPU, hA1, hcc, hout⟩
  · intro hkeyDO
    have hDO0 : getCol (renamed df) "dropoff_datetime" = some cDO := by
      rw [← @getCol_setCol_ne (renamed df) "pickup_datetime" "dropoff_datetime" cPU1 hne]
      exact hDO
    have hg3DO : getCol (setCol (setCol (renamed df) "pickup_datetime" cPU1)
        "dropoff_datetime" cDO1) "dropoff_datetime" = some cDO1 :=
      getCol_setCol_self hmemDO2
    have hmem3 : "dropoff_datetime" ∈ colNames (setCol (setCol (renamed df)
        "pickup_datetime" cPU1) "dropoff_datetime" cDO1) := getCol_some_mem hg3DO
    rcases (cleanLoop_char hloop hndc hmem3 hkeyDO).1 cDO1 hg3DO with ⟨c1, hcc, hout⟩
    exact ⟨cDO, cDO1, c1, hDO0, hA2, hcc, hout⟩

theorem renamed_eq {df : DF} :
    renamed df = df.map (fun p => (aliasName (normalizeName p.1), p.2)) := by
  simp only [renamed, renameCols, List.map_map]
  rfl

theorem colNames_renamed {df : DF} :
    colNames (renamed df) = (colNames df).map (fun s => aliasName (normalizeName s)) := by
  rw [renamed_eq]
  simp only [colNames, List.map_map]
  rfl

theorem map_eq_of_mapeq {α β : Type} {l : List α} {f g : α → β}
    (h : l.map f = l.map g) : ∀ a ∈ l, f a = g a := by
  induction l with
  | nil => intro a ha; exact absurd ha (by simp)
  | cons x t ih =>
      intro a ha
      rw [List.map_cons, List.map_cons] at h
      have hx := List.cons.inj h
      cases List.mem_cons.mp ha with
      | inl he => rw [he]; exact hx.1
      | inr hm => exact ih hx.2 a hm

theorem clean_dtype_det {df : DF} {mh : List (String × String)} {out : DF}
    (h : clean df mh = .ok out) (hnd : (colNames (renamed df)).Nodup)
    {n : String} (hkey : n ∈ mhKeys mh)
    (hnpu : n ≠ "pickup_datetime") (hndo : n ≠ "dropoff_datetime") :
    (getCol out n).map Col.dtype
      = (getCol (renamed df) n).map (fun c => loopDtype c.dtype) := by
  have hpart := (clean_char h hnd).1 n hkey hnpu hndo
  cases hg : getCol (renamed df) n with
  | none => rw [hpart.2 hg]; rfl
  | some c =>
      rcases hpart.1 c hg with ⟨c1, hcc, hout⟩
      rw [hout]
      simp only [Option.map_some']
      rw [cleanCol_dtype hcc]

theorem clean_pickup_ms {df : DF} {mh : List (String × String)} {out : DF}
    (h : clean df mh = .ok out) (hnd : (colNames (renamed df)).Nodup)
    (hkey : "pickup_datetime" ∈ mhKeys mh) :
    (getCol out "pickup_datetime").map Col.dtype = some .datetimeMs := by
  rcases (clean_char h hnd).2.1 hkey with ⟨cPU, cPU1, c1, _, hA1, hcc, hout⟩
  rw [hout]
  simp only [Option.map_some']
  rw [cleanCol_dtype hcc, astype_ok_dtype hA1]
  rfl

theorem clean_dropoff_ms {df : DF} {mh : List (String × String)} {out : DF}
    (h : clean df mh = .ok out) (hnd : (colNames (renamed df)).Nodup)
    (hkey : "dropoff_datetime" ∈ mhKeys mh) :
    (getCol out "dropoff_datetime").map Col.dtype = some .datetimeMs := by
  rcases (clean_char h hnd).2.2 hkey with ⟨cDO, cDO1, c1, _, hA2, hcc, hout⟩
  rw [hout]
  simp only [Option.map_some']
  rw [cleanCol_dtype hcc, astype_ok_dtype hA2]
  rfl

theorem clean_error_castError {df : DF} {mh : List (String × String)} {e : CleanError}
    (h : clean df mh = .error e) (hnd : (colNames (renamed df)).Nodup)
    (hPUm : "pickup_datetime" ∈ colNames (renamed df))
    (hDOm : "dropoff_datetime" ∈ colNames (renamed df)) :
    e = .castError := by
  unfold clean at h
  cases hPU : getCol (renamed df) "pickup_datetime" with
  | none => exact absurd (getCol_eq_none_iff.mp hPU) (not_not.mpr hPUm)
  | some cPU =>
      simp only [hPU] at h
      cases hA1 : astype cPU .datetimeMs with
      | error e1 =>
          simp only [hA1] at h
          have he := Except.error.inj h
          exact he ▸ astype_error_eq hA1
      | ok cPU1 =>
          simp only [hA1] at h
          cases hDO : getCol (setCol (renamed df) "pickup_datetime" cPU1)
              "dropoff_datetime" with
          | none =>
              have : "dropoff_datetime" ∉ colNames (setCol (renamed df)
                  "pickup_datetime" cPU1) := getCol_eq_none_iff.mp hDO
              rw [colNames_setCol hPUm] at this
              exact absurd hDOm this
          | some cDO =>
              simp only [hDO] at h
              cases hA2 : astype cDO .datetimeMs with
              | error e1 =>
                  simp only [hA2] at h
                  have he := Except.error.inj h
                  exact he ▸ astype_error_eq hA2
              | ok cDO1 =>
                  simp only [hA2] at h
                  have hn3 : colNames (setCol (setCol (renamed df)
                      "pickup_datetime" cPU1) "dropoff_datetime" cDO1)
                      = colNames (renamed df) := by
                    rw [colNames_setCol (getCol_some_mem hDO), colNames_setCol hPUm]
                  refine cleanLoop_error h (by rw [hn3]; exact hnd) ?_
                  intro c hc
                  exact hc

theorem clean_out_fix {df : DF} {out : DF}
    (h : clean df must_haves = .ok out) (hnd : (colNames (renamed df)).Nodup) :
    ∀ n col, getCol out n = some col → n ∈ mhKeys must_haves →
      cleanCol col = .ok col := by
  intro n col hcol hkey
  by_cases hnpu : n = "pickup_datetime"
  · subst hnpu
    rcases (clean_char h hnd).2.1 hkey with ⟨cPU, cPU1, c1, _, hA1, hcc, hout⟩
    have hcoleq : col = c1 := Option.some.inj (hcol.symm.trans hout)
    subst hcoleq
    apply cleanCol_fix (cleanCol_stable hcc)
    rw [cleanCol_dtype hcc, astype_ok_dtype hA1]
    rfl
  · by_cases hndo : n = "dropoff_datetime"
    · subst hndo
      rcases (clean_char h hnd).2.2 hkey with ⟨cDO, cDO1, c1, _, hA2, hcc, hout⟩
      have hcoleq : col = c1 := Option.some.inj (hcol.symm.trans hout)
      subst hcoleq
      apply cleanCol_fix (cleanCol_stable hcc)
      rw [cleanCol_dtype hcc, astype_ok_dtype hA2]
      rfl
    · have hpart := (clean_char h hnd).1 n hkey hnpu hndo
      cases hg : getCol (renamed df) n with
      | none => exact absurd (hcol.symm.trans (hpart.2 hg)) (by simp)
      | some c =>
          rcases hpart.1 c hg with ⟨c1, hcc, hout⟩
          have hcoleq : col = c1 := Option.some.inj (hcol.symm.trans hout)
          subst hcoleq
          apply cleanCol_fix (cleanCol_stable hcc)
          rw [cleanCol_dtype hcc]
          exact loopFixed_loopDtype _

theorem clean_out_ts {df : DF} {out : DF}
    (h : clean df must_haves = .ok out) (hnd : (colNames (renamed df)).Nodup) :
    (∃ cP, getCol out "pickup_datetime" = some cP
        ∧ cP.dtype = .datetimeMs ∧ dtCol cP = true)
    ∧ (∃ cD, getCol out "dropoff_datetime" = some cD
        ∧ cD.dtype = .datetimeMs ∧ dtCol cD = true) := by
  constructor
  · rcases (clean_char h hnd).2.1 (by decide) with ⟨cPU, cPU1, c1, _, hA1, hcc, hout⟩
    have hms := cleanCol_Ms_out (astype_ok_dtype hA1) (astype_Ms_dtOpt hA1) hcc
    exact ⟨c1, hout, hms.1, hms.2⟩
  · rcases (clean_char h hnd).2.2 (by decide) with ⟨cDO, cDO1, c1, _, hA2, hcc, hout⟩
    have hms := cleanCol_Ms_out (astype_ok_dtype hA2) (astype_Ms_dtOpt hA2) hcc
    exact ⟨c1, hout, hms.1, hms.2⟩

theorem clean_idem {df : DF} {out : DF} (hnd : (colNames (renamed df)).Nodup)
    (h : clean df must_haves = .ok out) : clean out must_haves = .ok out := by
  have hmemkeys : ∀ n ∈ colNames out, n ∈ mhKeys must_haves := by
    intro n hn
    rw [clean_names h] at hn
    exact contains_iff.mp (List.mem_filter.mp hn).2
  have hndout : (colNames out).Nodup := by
    rw [clean_names h]
    exact hnd.filter _
  have hkfix : (mhKeys must_haves).all
      (fun k => (normalizeName k == k) && (aliasName k == k)) = true := by decide
  have hren : renamed out = out := by
    rw [renamed_eq]
    have hpt : ∀ p ∈ out,
        (fun (p : String × Col) => (aliasName (normalizeName p.1), p.2)) p = id p := by
      intro p hp
      have hk := hmemkeys p.1 (List.mem_map_of_mem Prod.fst hp)
      have hb := List.all_eq_true.mp hkfix p.1 hk
      have h1 : normalizeName p.1 = p.1 := by
        simpa using ((Bool.and_eq_true _ _).mp hb).1
      have h2 : aliasName p.1 = p.1 := by
        simpa using ((Bool.and_eq_true _ _).mp hb).2
      simp [h1, h2]
    rw [List.map_congr_left hpt, List.map_id]
  obtain ⟨⟨cP, hgp, hdP, hdcP⟩, ⟨cD, hgd, hdD, hdcD⟩⟩ := clean_out_ts h hnd
  have hastP : astype cP .datetimeMs = .ok cP := astype_Ms_fix hdP hdcP
  have hastD : astype cD .datetimeMs = .ok cD := astype_Ms_fix hdD hdcD
  have hsetP : setCol out "pickup_datetime" cP = out := setCol_self_id hndout hgp
  have hsetD : setCol out "dropoff_datetime" cD = out := setCol_self_id hndout hgd
  have hloop : cleanLoop must_haves (colNames out) out = .ok out := by
    apply cleanLoop_id hndout hmemkeys (fun c hc => hc)
    intro a ha col hcol
    exact clean_out_fix h hnd a col hcol (hmemkeys a ha)
  unfold clean
  rw [hren]
  simp only [hgp, hastP]
  rw [hsetP]
  simp only [hgd, hastD]
  rw [hsetD]
  exact hloop

theorem clean_renamed_congr {df1 df2 : DF} {mh : List (String × String)}
    (h : renamed df1 = renamed df2) : clean df1 mh = clean df2 mh := by
  unfold clean
  rw [h]

/-! ### Lemmas about the heap model -/

theorem getD_concat_self {l : List DF} {x : DF} : (l ++ [x]).getD l.length [] = x := by
  rw [List.getD_eq_getElem?_getD, List.getElem?_concat_length]
  rfl

theorem getD_concat_lt {l : List DF} {x : DF} {k : Nat} (hk : k < l.length) :
    (l ++ [x]).getD k [] = l.getD k [] := by
  rw [List.getD_eq_getElem?_getD, List.getD_eq_getElem?_getD, List.getElem?_append,
    if_pos hk]

theorem getD_set_self {l : List DF} {x : DF} {r : Nat} (hr : r < l.length) :
    (l.set r x).getD r [] = x := by
  rw [List.getD_eq_getElem?_getD, List.getElem?_set_self hr]
  rfl

theorem cleanLoopH_corr {mh : List (String × String)} :
    ∀ {cols : List String} {h : List DF} {r : Nat}, r < h.length →
    (cleanLoopH mh cols h r).map (fun p => p.1.getD p.2 [])
      = cleanLoop mh cols (h.getD r []) := by
  intro cols
  induction cols with
  | nil => intro h r _; rfl
  | cons col rest ih =>
      intro h r hr
      simp only [cleanLoopH, cleanLoop]
      by_cases hk : (mhKeys mh).contains col = true
      · rw [if_neg (by rw [hk]; decide), if_neg (by rw [hk]; decide)]
        cases hg : getCol (h.getD r []) col with
        | none => rfl
        | some c =>
            dsimp only
            cases hcc : cleanCol c with
            | error e => rfl
            | ok c1 =>
                have hr2 : r < (h.set r (setCol (h.getD r []) col c1)).length := by
                  rw [List.length_set]; exact hr
                rw [ih hr2, getD_set_self hr]
      · have hkf : (mhKeys mh).contains col = false := by
          cases hb : (mhKeys mh).contains col
          · rfl
          · exact absurd hb hk
        rw [if_pos (by rw [hkf]; rfl), if_pos (by rw [hkf]; rfl)]
        cases hd : dropCol (h.getD r []) col with
        | error e => rfl
        | ok df1 =>
            dsimp only
            have hlen : h.length < (h ++ [df1]).length := by simp
            rw [ih hlen, getD_concat_self]

theorem cleanLoopH_preserve {mh : List (String × String)} {N : Nat} :
    ∀ {cols : List String} {h : List DF} {r : Nat} {h1 : List DF} {j : Nat},
    N ≤ r → r < h.length → cleanLoopH mh cols h r = .ok (h1, j) →
    ∀ k, k < N → h1.getD k [] = h.getD k [] := by
  intro cols
  induction cols with
  | nil =>
      intro h r h1 j _ _ hok k _
      have hp := Prod.mk.inj (Except.ok.inj hok)
      rw [← hp.1]
  | cons col rest ih =>
      intro h r h1 j hNr hr hok k hk
      simp only [cleanLoopH] at hok
      by_cases hkc : (mhKeys mh).contains col = true
      · rw [if_neg (by rw [hkc]; decide)] at hok
        cases hg : getCol (h.getD r []) col with
        | none =>
            simp only [hg] at hok
            exact absurd hok (by simp)
        | some c =>
            simp only [hg] at hok
            cases hcc : cleanCol c with
            | error e =>
                simp only [hcc] at hok
                exact absurd hok (by simp)
            | ok c1 =>
                simp only [hcc] at hok
                have hr2 : r < (h.set r (setCol (h.getD r []) col c1)).length := by
                  rw [List.length_set]; exact hr
                have := ih hNr hr2 hok k hk
                rw [this, List.getD_eq_getElem?_getD, List.getD_eq_getElem?_getD,
                  List.getElem?_set_ne (by omega : r ≠ k)]
                rw [List.getD_eq_getElem?_getD]
      · have hkf : (mhKeys mh).contains col = false := by
          cases hb : (mhKeys mh).contains col
          · rfl
          · exact absurd hb hkc
        rw [if_pos (by rw [hkf]; rfl)] at hok
        cases hd : dropCol (h.getD r []) col with
        | error e =>
            simp only [hd] at hok
            exact absurd hok (by simp)
        | ok df1 =>
            simp only [hd] at hok
            have hN2 : N ≤ h.length := le_of_lt (lt_of_le_of_lt hNr hr)
            have hlen : h.length < (h ++ [df1]).length := by simp
            have := ih hN2 hlen hok k hk
            rw [this, getD_concat_lt (lt_of_lt_of_le hk hN2)]

theorem cleanH_corr {h : List DF} {i : Nat} {mh : List (String × String)} :
    (cleanH h i mh).map (fun p => p.1.getD p.2 [])
      = clean (h.getD i []) mh := by
  simp only [cleanH, clean, renamed]
  rw [getD_concat_self]
  cases hPU : getCol (renameCols aliasName (renameCols normalizeName (h.getD i [])))
      "pickup_datetime" with
  | none => rfl
  | some cPU =>
      dsimp only
      cases hA1 : astype cPU .datetimeMs with
      | error e => rfl
      | ok cPU1 =>
          dsimp only
          have hrlt : (h ++ [renameCols normalizeName (h.getD i [])]).length
              < ((h ++ [renameCols normalizeName (h.getD i [])])
                ++ [renameCols aliasName (renameCols normalizeName (h.getD i []))]).length := by
            simp
          rw [getD_set_self hrlt]
          cases hDO : getCol (setCol (renameCols aliasName
              (renameCols normalizeName (h.getD i []))) "pickup_datetime" cPU1)
              "dropoff_datetime" with
          | none => rfl
          | some cDO =>
              dsimp only
              cases hA2 : astype cDO .datetimeMs with
              | error e => rfl
              | ok cDO1 =>
                  dsimp only
                  have hrlt2 : (h ++ [renameCols normalizeName (h.getD i [])]).length
                      < (((h ++ [renameCols normalizeName (h.getD i [])])
                        ++ [renameCols aliasName (renameCols normalizeName (h.getD i []))]).set
                          (h ++ [renameCols normalizeName (h.getD i [])]).length
                          (setCol (renameCols aliasName (renameCols normalizeName
                            (h.getD i []))) "pickup_datetime" cPU1)).length := by
                    rw [List.length_set]
                    simp
                  rw [getD_set_self hrlt2]
                  have hrlt3 : (h ++ [renameCols normalizeName (h.getD i [])]).length
                      < ((((h ++ [renameCols normalizeName (h.getD i [])])
                        ++ [renameCols aliasName (renameCols normalizeName (h.getD i []))]).set
                          (h ++ [renameCols normalizeName (h.getD i [])]).length
                          (setCol (renameCols aliasName (renameCols normalizeName
                            (h.getD i []))) "pickup_datetime" cPU1)).set
                          (h ++ [renameCols normalizeName (h.getD i [])]).length
                          (setCol (setCol (renameCols aliasName (renameCols normalizeName
                            (h.getD i []))) "pickup_datetime" cPU1)
                            "dropoff_datetime" cDO1)).length := by
                    rw [List.length_set, List.length_set]
                    simp
                  rw [cleanLoopH_corr hrlt3, getD_set_self hrlt2]

theorem cleanH_preserve {h : List DF} {i : Nat} {mh : List (String × String)}
    {h1 : List DF} {j : Nat} (hok : cleanH h i mh = .ok (h1, j)) :
    ∀ k, k < h.length → h1.getD k [] = h.getD k [] := by
  intro k hk
  simp only [cleanH] at hok
  rw [getD_concat_self] at hok
  cases hPU : getCol (renameCols aliasName (renameCols normalizeName (h.getD i [])))
      "pickup_datetime" with
  | none =>
      simp only [hPU] at hok
      exact absurd hok (by simp)
  | some cPU =>
      simp only [hPU] at hok
      cases hA1 : astype cPU .datetimeMs with
      | error e =>
          simp only [hA1] at hok
          exact absurd hok (by simp)
      | ok cPU1 =>
          simp only [hA1] at hok
          have hrlt : (h ++ [renameCols normalizeName (h.getD i [])]).length
              < ((h ++ [renameCols normalizeName (h.getD i [])])
                ++ [renameCols aliasName (renameCols normalizeName (h.getD i []))]).length := by
            simp
          rw [getD_set_self hrlt] at hok
          cases hDO : getCol (setCol (renameCols aliasName
              (renameCols normalizeName (h.getD i []))) "pickup_datetime" cPU1)
              "dropoff_datetime" with
          | none =>
              simp only [hDO] at hok
              exact absurd hok (by simp)
          | some cDO =>
              simp only [hDO] at hok
              cases hA2 : astype cDO .datetimeMs with
              | error e =>
                  simp only [hA2] at hok
                  exact absurd hok (by simp)
              | ok cDO1 =>
                  simp only [hA2] at hok
                  have hrlt2 : (h ++ [renameCols normalizeName (h.getD i [])]).length
                      < (((h ++ [renameCols normalizeName (h.getD i [])])
                        ++ [renameCols aliasName (renameCols normalizeName (h.getD i []))]).set
                          (h ++ [renameCols normalizeName (h.getD i [])]).length
                          (setCol (renameCols aliasName (renameCols normalizeName
                            (h.getD i []))) "pickup_datetime" cPU1)).length := by
                    rw [List.length_set]
                    simp
                  rw [getD_set_self hrlt2] at hok
                  have hrlt3 : (h ++ [renameCols normalizeName (h.getD i [])]).length
                      < ((((h ++ [renameCols normalizeName (h.getD i [])])
                        ++ [renameCols aliasName (renameCols normalizeName (h.getD i []))]).set
                          (h ++ [renameCols normalizeName (h.getD i [])]).length
                          (setCol (renameCols aliasName (renameCols normalizeName
                            (h.getD i []))) "pickup_datetime" cPU1)).set
                          (h ++ [renameCols normalizeName (h.getD i [])]).length
                          (setCol (setCol (renameCols aliasName (renameCols normalizeName
                            (h.getD i []))) "pickup_datetime" cPU1)
                            "dropoff_datetime" cDO1)).length := by
                    rw [List.length_set, List.length_set]
                    simp
                  have hNle : h.length
                      ≤ (h ++ [renameCols normalizeName (h.getD i [])]).length := by
                    simp
                  have hpres := cleanLoopH_preserve hNle hrlt3 hok k hk
                  rw [hpres]
                  have hkne1 : (h ++ [renameCols normalizeName (h.getD i [])]).length ≠ k := by
                    simp only [List.length_append, List.length_cons, List.length_nil]
                    omega
                  rw [List.getD_eq_getElem?_getD, List.getElem?_set_ne hkne1,
                    List.getElem?_set_ne hkne1, ← List.getD_eq_getElem?_getD]
                  have hklt1 : k < (h ++ [renameCols normalizeName (h.getD i [])]).length := by
                    simp only [List.length_append]
                    omega
                  rw [getD_concat_lt hklt1, getD_concat_lt hk]

/-! ### Claim theorems -/

/-- C1: for every raw batch that contains every canonical column of the
ColumnSpec `must_haves`, directly or via a known alias, the column set of the
batch returned by `clean` equals exactly the key set of `must_haves`: each
canonical column is present (trimmed, lower-cased, alias-resolved) and no
other column appears in the output. -/
theorem c1_output_column_set (df out : DF)
    (hpre : ∀ k ∈ mhKeys must_haves, k ∈ colNames (renamed df))
    (h : clean df must_haves = .ok out) :
    (colNames out).toFinset = (mhKeys must_haves).toFinset :=
  clean_names_set hpre h

theorem c1_output_column_set_witness :
    (colNames sampleOut).toFinset = (mhKeys must_haves).toFinset :=
  c1_output_column_set sampleDF sampleOut (by decide) (by rfl)

/-- C2 counterexample: `noFareDF` lacks the canonical column `fare_amount`
(and no alias of it) even after normalization, yet `clean` does not raise a
schema-mismatch error: it returns a batch, which simply lacks
`fare_amount`. -/
theorem c2_counterexample :
    "fare_amount" ∈ mhKeys must_haves
    ∧ "fare_amount" ∉ colNames (renamed noFareDF)
    ∧ (clean noFareDF must_haves).toOption.map
        (fun o => (colNames o).contains "fare_amount") = some false :=
  ⟨by decide, by decide, by rfl⟩

/-- C2 amended: `clean` raises a schema-mismatch (`KeyError`) only for the
two timestamp columns: a raw batch with no `pickup_datetime` column after
whitespace/case normalization and alias resolution makes `clean` raise
`KeyError "pickup_datetime"` with no partial output; a missing non-timestamp
canonical column is silently omitted from the output instead. -/
theorem c2_missing_timestamp_raises (df : DF)
    (h : "pickup_datetime" ∉ colNames (renamed df)) :
    clean df must_haves = .error (.keyError "pickup_datetime") :=
  clean_missing_pickup h

theorem c2_missing_timestamp_raises_witness :
    clean noPickupDF must_haves = .error (.keyError "pickup_datetime") :=
  c2_missing_timestamp_raises noPickupDF (by decide)

/-- C3 counterexample: `sampleDF` and `objPcDF` both contain every canonical
column, but `passenger_count` is a 64-bit integer column in the first and a
textual column in the second; the two `clean` outputs give that column the
dtypes `int32` and `float32` respectively, so the per-column output types are
not identical across batches. -/
theorem c3_counterexample :
    ((mhKeys must_haves).all
        (fun k => (colNames (renamed sampleDF)).contains k) = true)
    ∧ ((mhKeys must_haves).all
        (fun k => (colNames (renamed objPcDF)).contains k) = true)
    ∧ ((clean sampleDF must_haves).toOption.bind
        (fun o => (getCol o "passenger_count").map Col.dtype) = some .int32)
    ∧ ((clean objPcDF must_haves).toOption.bind
        (fun o => (getCol o "passenger_count").map Col.dtype) = some .float32)
    ∧ Dtype.int32 ≠ Dtype.float32 :=
  ⟨by decide, by decide, by rfl, by rfl, by decide⟩

/-- C3 amended: two raw batches that each contain every canonical column
always produce outputs with an identical column set; their per-column output
types are identical provided the corresponding native columns have the same
dtype for every canonical column (the output dtype is a function of the
native dtype: textual \to float32, integer \to int32, floating \to float32,
the two timestamp columns \to datetime64[ms]). -/
theorem c3_column_set_and_determined_types (df1 df2 out1 out2 : DF)
    (hnd1 : (colNames (renamed df1)).Nodup) (hnd2 : (colNames (renamed df2)).Nodup)
    (hpre1 : ∀ k ∈ mhKeys must_haves, k ∈ colNames (renamed df1))
    (hpre2 : ∀ k ∈ mhKeys must_haves, k ∈ colNames (renamed df2))
    (h1 : clean df1 must_haves = .ok out1) (h2 : clean df2 must_haves = .ok out2)
    (hty : (mhKeys must_haves).map (fun n => (getCol (renamed df1) n).map Col.dtype)
        = (mhKeys must_haves).map (fun n => (getCol (renamed df2) n).map Col.dtype)) :
    (colNames out1).toFinset = (colNames out2).toFinset
    ∧ (mhKeys must_haves).map (fun n => (getCol out1 n).map Col.dtype)
        = (mhKeys must_haves).map (fun n => (getCol out2 n).map Col.dtype) := by
  constructor
  · rw [clean_names_set hpre1 h1, clean_names_set hpre2 h2]
  · apply List.map_congr_left
    intro n hn
    by_cases hpu : n = "pickup_datetime"
    · subst hpu
      rw [clean_pickup_ms h1 hnd1 (by decide), clean_pickup_ms h2 hnd2 (by decide)]
    · by_cases hdo : n = "dropoff_datetime"
      · subst hdo
        rw [clean_dropoff_ms h1 hnd1 (by decide), clean_dropoff_ms h2 hnd2 (by decide)]
      · rw [clean_dtype_det h1 hnd1 hn hpu hdo, clean_dtype_det h2 hnd2 hn hpu hdo]
        have hpt := map_eq_of_mapeq hty n hn
        have e1 : (getCol (renamed df1) n).map (fun c => loopDtype c.dtype)
            = ((getCol (renamed df1) n).map Col.dtype).map loopDtype := by
          cases getCol (renamed df1) n <;> rfl
        rw [e1, hpt]
        cases getCol (renamed df2) n <;> rfl

theorem c3_column_set_and_determined_types_witness :
    ((colNames sampleOut).toFinset = (colNames sample2Out).toFinset)
    ∧ (mhKeys must_haves).map (fun n => (getCol sampleOut n).map Col.dtype)
        = (mhKeys must_haves).map (fun n => (getCol sample2Out n).map Col.dtype) :=
  c3_column_set_and_determined_types sampleDF sample2DF sampleOut sample2Out
    (by decide) (by decide) (by decide) (by decide) (by rfl) (by rfl) (by rfl)

/-- C4 counterexample: `objPcDF` gives `passenger_count` textually; `clean`
casts it to `float32`, not to the target type `int32` that `must_haves`
declares for it. -/
theorem c4_counterexample :
    ((clean objPcDF must_haves).toOption.bind
        (fun o => (getCol o "passenger_count").map Col.dtype) = some .float32)
    ∧ (must_haves.find? (fun p => p.1 == "passenger_count")).map Prod.snd
        = some "int32"
    ∧ dtypeStr .float32 ≠ "int32" :=
  ⟨by rfl, by rfl, by decide⟩

/-- C4 amended: for every retained textual column, `clean` replaces missing
entries with the fixed sentinel string "-1" before parsing and then casts
the column to `float32`, regardless of the numeric type the ColumnSpec
declares for it; in particular a text column ["12.5", missing, "9.0"] yields
[12.5, -1.0, 9.0] of dtype float32. -/
theorem c4_textual_sentinel_then_float32 (df out : DF)
    (hnd : (colNames (renamed df)).Nodup)
    (h : clean df must_haves = .ok out)
    (n : String) (hkey : n ∈ mhKeys must_haves)
    (hnpu : n ≠ "pickup_datetime") (hndo : n ≠ "dropoff_datetime")
    (cs : List (Option Val)) (hc : getCol (renamed df) n = some ⟨.object, cs⟩) :
    getCol out n = some ⟨.float32,
      (strFillna ⟨.object, cs⟩ "-1").cells.map
        (fun ov => ov.bind (castCell .object .float32))⟩ := by
  rcases ((clean_char h hnd).1 n hkey hnpu hndo).1 _ hc with ⟨c1, hcc, hout⟩
  rw [cleanCol_object] at hcc
  obtain ⟨d1, cs1⟩ := c1
  have hdt : d1 = Dtype.float32 := astype_ok_dtype hcc
  have hcl : cs1 = (strFillna (⟨Dtype.object, cs⟩ : Col) "-1").cells.map
      (fun ov => ov.bind (castCell Dtype.object Dtype.float32)) := astype_ok_cells hcc
  subst hdt
  rw [hout, hcl]

theorem c4_textual_sentinel_then_float32_witness :
    getCol scenarioBOut "fare_amount" = some ⟨.float32,
      [some (.float (mkDec 25 2)), some (.float (mkDec (-1) 1)),
        some (.float (mkDec 9 1))]⟩ :=
  (c4_textual_sentinel_then_float32 scenarioBDF scenarioBOut (by decide) (by rfl)
    "fare_amount" (by decide) (by decide) (by decide)
    [some (.str "12.5"), none, some (.str "9.0")] (by rfl)).trans (by rfl)

/-- C5: for every raw batch containing all canonical columns and a retained
textual column with a non-missing value that cannot be parsed into the
target numeric type even after sentinel substitution (such as the malformed
text "12.5.3"), `clean` raises a type-coercion error (`castError`) that is
fatal for that batch. -/
theorem c5_malformed_text_raises (df : DF)
    (hnd : (colNames (renamed df)).Nodup)
    (hpre : ∀ k ∈ mhKeys must_haves, k ∈ colNames (renamed df))
    (n : String) (hkey : n ∈ mhKeys must_haves)
    (hnpu : n ≠ "pickup_datetime") (hndo : n ≠ "dropoff_datetime")
    (cs : List (Option Val)) (hc : getCol (renamed df) n = some ⟨.object, cs⟩)
    (s : String) (hs : some (.str s) ∈ cs) (hparse : parseDecimal s = none) :
    clean df must_haves = .error .castError := by
  cases hres : clean df must_haves with
  | ok out =>
      exfalso
      rcases ((clean_char hres hnd).1 n hkey hnpu hndo).1 _ hc with ⟨c1, hcc, _⟩
      rw [cleanCol_object] at hcc
      unfold astype at hcc
      cases hr : castCells (strFillna (⟨Dtype.object, cs⟩ : Col) "-1").dtype
          Dtype.float32 (strFillna (⟨Dtype.object, cs⟩ : Col) "-1").cells with
      | error e =>
          rw [hr, exmap_error] at hcc
          exact absurd hcc (by simp)
      | ok l =>
          have hmem : some (Val.str s)
              ∈ (strFillna (⟨Dtype.object, cs⟩ : Col) "-1").cells :=
            List.mem_map.mpr ⟨some (Val.str s), hs, rfl⟩
          apply castCells_ok_mem hr hmem
          show castCell Dtype.object Dtype.float32 (Val.str s) = none
          simp [castCell, hparse]
  | error e =>
      rw [clean_error_castError hres hnd (hpre _ (by decide)) (hpre _ (by decide))]

theorem c5_malformed_text_raises_witness :
    clean badFareDF must_haves = .error .castError :=
  c5_malformed_text_raises badFareDF (by decide) (by decide) "fare_amount"
    (by decide) (by decide) (by decide) [some (.str "12.5.3")] (by rfl)
    "12.5.3" (by decide) (by rfl)

/-- C6: idempotence: for every raw batch on which `clean` succeeds, applying
`clean` to its own output yields that output unchanged; equivalently, calling
`clean` twice yields the same result as calling it once. -/
theorem c6_idempotent (df out : DF) (hnd : (colNames (renamed df)).Nodup)
    (h : clean df must_haves = .ok out) : clean out must_haves = .ok out :=
  clean_idem hnd h

theorem c6_idempotent_witness : clean sampleOut must_haves = .ok sampleOut :=
  c6_idempotent sampleDF sampleOut (by decide) (by rfl)

/-- C7: no missing entries: whenever `clean` returns a batch, no column of
that batch contains a missing-value marker — every missing entry, including
in the timestamp columns, has been replaced by a sentinel. -/
theorem c7_no_missing_values (df out : DF) (h : clean df must_haves = .ok out) :
    out.all (fun p => noneFree p.2) = true := by
  rw [List.all_eq_true]
  intro p hp
  exact clean_out_noneFree h p hp

theorem c7_no_missing_values_witness :
    sampleOut.all (fun p => noneFree p.2) = true :=
  c7_no_missing_values sampleDF sampleOut (by rfl)

/-- C8: alias property: two raw batches that are identical except that one
names a column by a known alias (after whitespace/case normalization) and
the other uses the canonical name produce outputs from `clean` with
identical column naming. -/
theorem c8_alias_same_naming (pre post : DF) (n1 n2 : String) (c : Col)
    (mh : List (String × String))
    (halias : aliasName (normalizeName n1) = aliasName (normalizeName n2)) :
    (clean (pre ++ (n1, c) :: post) mh).map colNames
      = (clean (pre ++ (n2, c) :: post) mh).map colNames := by
  have hr : renamed (pre ++ (n1, c) :: post) = renamed (pre ++ (n2, c) :: post) := by
    rw [renamed_eq, renamed_eq, List.map_append, List.map_append,
      List.map_cons, List.map_cons]
    rw [halias]
  rw [clean_renamed_congr hr]

theorem c8_alias_same_naming_witness :
    (clean (("Tpep_Pickup_Datetime ", pickupColW) :: restW) must_haves).map colNames
      = (clean (("pickup_datetime", pickupColW) :: restW) must_haves).map colNames :=
  c8_alias_same_naming [] restW "Tpep_Pickup_Datetime " "pickup_datetime"
    pickupColW must_haves (by decide)

/-- C9: purity: in the heap model of the Python call — where the caller's
batch lives at index `i` of the heap, `ddf = ddf.rename(...)` allocates fresh
copies and every later in-place update mutates only those copies — running
`clean` leaves every pre-existing heap cell (in particular the caller's
input batch) unchanged, and the returned reference holds exactly the batch
the pure `clean` computes from the input; the only effect is the production
of the new output batch. -/
theorem c9_no_mutation (h : List DF) (i : Nat) (mh : List (String × String)) :
    (cleanH h i mh).map (fun p =>
        (p.1.getD p.2 [], (List.range h.length).map (fun k => p.1.getD k [])))
      = (clean (h.getD i []) mh).map (fun out =>
        (out, (List.range h.length).map (fun k => h.getD k []))) := by
  cases hres : cleanH h i mh with
  | error e =>
      have hc := @cleanH_corr h i mh
      rw [hres, exmap_error] at hc
      rw [← hc, exmap_error]
      exact exmap_error.symm
  | ok p =>
      obtain ⟨h1, j⟩ := p
      have hc := @cleanH_corr h i mh
      rw [hres, exmap_ok] at hc
      rw [← hc, exmap_ok, exmap_ok]
      have hpres : (List.range h.length).map (fun k => h1.getD k [])
          = (List.range h.length).map (fun k => h.getD k []) := by
        apply List.map_congr_left
        intro k hk
        exact cleanH_preserve hres k (List.mem_range.mp hk)
      rw [hpres]

/-- C10: for every raw batch processed by `clean`, the two timestamp columns
`pickup_datetime` and `dropoff_datetime` in the output are cast to the
millisecond-precision dtype `datetime64[ms]`, not to the second-precision
`datetime64[s]` that the `must_haves` ColumnSpec declares for them. -/
theorem c10_timestamps_ms (df out : DF) (hnd : (colNames (renamed df)).Nodup)
    (h : clean df must_haves = .ok out) :
    (getCol out "pickup_datetime").map Col.dtype = some .datetimeMs
    ∧ (getCol out "dropoff_datetime").map Col.dtype = some .datetimeMs
    ∧ (must_haves.find? (fun p => p.1 == "pickup_datetime")).map Prod.snd
        = some "datetime64[s]"
    ∧ (must_haves.find? (fun p => p.1 == "dropoff_datetime")).map Prod.snd
        = some "datetime64[s]"
    ∧ dtypeStr .datetimeMs ≠ "datetime64[s]" :=
  ⟨clean_pickup_ms h hnd (by decide), clean_dropoff_ms h hnd (by decide),
    by rfl, by rfl, by decide⟩

theorem c10_timestamps_ms_witness :
    (getCol sampleOut "pickup_datetime").map Col.dtype = some .datetimeMs
    ∧ (getCol sampleOut "dropoff_datetime").map Col.dtype = some .datetimeMs
    ∧ (must_haves.find? (fun p => p.1 == "pickup_datetime")).map Prod.snd
        = some "datetime64[s]"
    ∧ (must_haves.find? (fun p => p.1 == "dropoff_datetime")).map Prod.snd
        = some "datetime64[s]"
    ∧ dtypeStr .datetimeMs ≠ "datetime64[s]" :=
  c10_timestamps_ms sampleDF sampleOut (by decide) (by rfl)
